import Mathlib

/-!
# C0VM: a shallow embedding of `execute` (src/c0vm.c)

The interpreter loop of `execute` is embedded as a step function on an explicit
machine state.  One call of `step` is one iteration of `while (true) { switch (P[pc]) ... }`.

Conventions of the embedding
* `int32_t` values are integers in `[-2^31, 2^31)`; `+ - * <<` wrap (`wrap32`),
  as the interpreter is specified to do.
* `ubyte` values are naturals below 256; every read of the code array is reduced
  modulo 256.
* `size_t` is 64 bits wide, pointers are 8 bytes, memory is little-endian and
  `char` is signed.
* `>>` on a negative `int32_t` is the arithmetic shift.
* The heap is a list of blocks of byte cells; a non-null pointer is a block
  number and a byte offset.  An allocation request of `2^63` bytes or more cannot be
  satisfied and ends the process; every other allocation yields a fresh block.
* Behaviour the C source leaves undefined (popping an empty operand stack,
  reading past an array, reading an integer out of a pointer value, ...) is the
  outcome `Outcome.undef`; it is never a successful step.
-/

namespace C0VM

/-! ## Machine integers -/

/-- The value of an integer after conversion to `int32_t` (two's complement wraparound). -/
def wrap32 (x : Int) : Int := (x + 2147483648) % 4294967296 - 2147483648

/-- Membership in the range of `int32_t`. -/
def isInt32 (x : Int) : Prop := -2147483648 ≤ x ∧ x < 2147483648

instance (x : Int) : Decidable (isInt32 x) := by unfold isInt32; infer_instance

/-- The constant `(int32_t)0x80000000`. -/
def INT32_MIN : Int := -2147483648

/-- The cast `(int8_t) b` of a byte. -/
def sext8 (b : Nat) : Int :=
  if b % 256 < 128 then ((b % 256 : Nat) : Int) else ((b % 256 : Nat) : Int) - 256

/-- The cast `(int16_t) w` of a 16-bit word. -/
def sext16 (w : Nat) : Int :=
  if w % 65536 < 32768 then ((w % 65536 : Nat) : Int) else ((w % 65536 : Nat) : Int) - 65536

/-- The 16-bit big-endian word `(c1 << 8) | c2` built from two bytes. -/
def word16 (c1 c2 : Nat) : Nat := (c1 % 256) * 256 + c2 % 256

/-- The value of `pc + (int16_t) off` computed in `size_t`. -/
def pcAdd (pc : Nat) (off : Int) : Nat := (((pc : Int) + off) % 18446744073709551616).toNat

/-! ## Values -/

/-- A pointer: `NULL`, or a block of the heap with a byte offset into it. -/
inductive Ptr where
  | null : Ptr
  | addr (blk : Nat) (off : Nat) : Ptr
  deriving DecidableEq, Repr

/-- Modelled from the spec: the type `c0_value` of lib/c0vm.h, which is not among the
sources; a value is a 32-bit signed integer or a reference (possibly null). -/
inductive c0_value where
  | int (i : Int) : c0_value
  | ptr (p : Ptr) : c0_value
  deriving DecidableEq, Repr

/-- Modelled from the spec: `int2val` of lib/c0vm.h. -/
def int2val (i : Int) : c0_value := .int i

/-- Modelled from the spec: `ptr2val` of lib/c0vm.h. -/
def ptr2val (p : Ptr) : c0_value := .ptr p

/-- Modelled from the spec: `val2int` of lib/c0vm.h; it is only defined on an integer value. -/
def val2int : c0_value → Option Int
  | .int i => some i
  | .ptr _ => none

/-- Modelled from the spec: `val2ptr` of lib/c0vm.h; it is only defined on a reference. -/
def val2ptr : c0_value → Option Ptr
  | .int _ => none
  | .ptr p => some p

/-- Modelled from the spec: `val_equal` of lib/c0vm.h: two integers are equal iff they are
the same integer, two references iff both are null or both denote the same location, an
integer is never equal to a reference. -/
def val_equal : c0_value → c0_value → Bool
  | .int a, .int b => decide (a = b)
  | .ptr p, .ptr q => decide (p = q)
  | _, _ => false

/-- Modelled from the spec: the all-zero `c0_value` that `xcalloc` leaves in a fresh locals
array (the integer 0). -/
def zero_value : c0_value := .int 0

/-! ## The heap -/

/-- One byte of heap memory: not yet written, a data byte, or one of the eight bytes of a
stored non-null pointer. -/
inductive Cell where
  | undef : Cell
  | byte (b : Nat) : Cell
  | pfrag (blk : Nat) (off : Nat) (i : Nat) : Cell
  deriving DecidableEq, Repr

/-- The heap: block number `b` is the `b`-th allocation. -/
abbrev Heap := List (List Cell)

/-- Read `n` cells of block `blk` from byte offset `off`; `none` outside the block. -/
def Heap.read (h : Heap) (blk off n : Nat) : Option (List Cell) :=
  match h[blk]? with
  | none => none
  | some cs => if off + n ≤ cs.length then some ((cs.drop off).take n) else none

/-- Overwrite the cells of block `blk` from byte offset `off`; `none` outside the block. -/
def Heap.write (h : Heap) (blk off : Nat) (new : List Cell) : Option Heap :=
  match h[blk]? with
  | none => none
  | some cs =>
    if off + new.length ≤ cs.length then
      some (h.set blk (cs.take off ++ new ++ cs.drop (off + new.length)))
    else none

/-- The four bytes of a 32-bit word, least significant first. -/
def encode32 (x : Int) : List Cell :=
  let u := (x % 4294967296).toNat
  [.byte (u % 256), .byte (u / 256 % 256), .byte (u / 65536 % 256), .byte (u / 16777216 % 256)]

/-- The unsigned 32-bit word held by four data bytes. -/
def decodeU32 : List Cell → Option Nat
  | [.byte a, .byte b, .byte c, .byte d] => some (a + 256 * b + 65536 * c + 16777216 * d)
  | _ => none

/-- The eight bytes of a stored pointer; `NULL` is eight zero bytes. -/
def encodePtr : Ptr → List Cell
  | .null => [.byte 0, .byte 0, .byte 0, .byte 0, .byte 0, .byte 0, .byte 0, .byte 0]
  | .addr b o =>
    [.pfrag b o 0, .pfrag b o 1, .pfrag b o 2, .pfrag b o 3,
     .pfrag b o 4, .pfrag b o 5, .pfrag b o 6, .pfrag b o 7]

/-- The pointer held by eight cells. -/
def decodePtr (cs : List Cell) : Option Ptr :=
  if cs = encodePtr .null then some .null
  else match cs with
    | .pfrag b o 0 :: _ => if cs = encodePtr (.addr b o) then some (.addr b o) else none
    | _ => none

/-- The read `*(uint32_t*) p`. -/
def Heap.loadU32 (h : Heap) (blk off : Nat) : Option Nat :=
  match h.read blk off 4 with
  | none => none
  | some cs => decodeU32 cs

/-- The read `*(int*) p`. -/
def Heap.load32 (h : Heap) (blk off : Nat) : Option Int :=
  match h.loadU32 blk off with
  | none => none
  | some u => some (wrap32 u)

/-- The write `*(int*) p = x`. -/
def Heap.store32 (h : Heap) (blk off : Nat) (x : Int) : Option Heap :=
  h.write blk off (encode32 x)

/-- The read `*(void**) p`. -/
def Heap.loadPtr (h : Heap) (blk off : Nat) : Option Ptr :=
  match h.read blk off 8 with
  | none => none
  | some cs => decodePtr cs

/-- The write `*(void**) p = q`. -/
def Heap.storePtr (h : Heap) (blk off : Nat) (q : Ptr) : Option Heap :=
  h.write blk off (encodePtr q)

/-- The read `(int32_t) *(char*) p`. -/
def Heap.load8 (h : Heap) (blk off : Nat) : Option Int :=
  match h.read blk off 1 with
  | some [.byte b] => some (sext8 b)
  | _ => none

/-- The write `*(char*) p = x`. -/
def Heap.store8 (h : Heap) (blk off : Nat) (x : Int) : Option Heap :=
  h.write blk off [.byte (x % 256).toNat]

/-- Size in bytes of `c0_array`: `uint32_t count` at offset 0, `uint32_t elt_size` at
offset 4 and `void *elems` at offset 8. -/
def sizeof_c0_array : Nat := 16

/-- The contents of a `c0_array` header after its three fields have been assigned. -/
def arrayHeader (count elt_size : Int) (elems : Ptr) : List Cell :=
  encode32 count ++ encode32 elt_size ++ encodePtr elems

/-- The conversion of an `int` to `size_t`. -/
def toSizeT (x : Int) : Nat := (x % 18446744073709551616).toNat

/-- The least request size, `2^63` bytes, that no allocation can satisfy: `xcalloc` does not
return on it and the process ends.  A negative `int` passed as a size is such a request. -/
def allocLimit : Nat := 9223372036854775808

/-! ## Programs -/

/-- The case labels of the `switch` in `execute`, in the order of the source. -/
inductive Opcode where
  | POP | DUP | SWAP | RETURN
  | IADD | ISUB | IMUL | IDIV | IREM | IAND | IOR | IXOR | ISHR | ISHL
  | BIPUSH | ILDC | ALDC | ACONST_NULL
  | VLOAD | VSTORE
  | ATHROW | ASSERT
  | NOP | IF_CMPEQ | IF_CMPNE | IF_ICMPLT | IF_ICMPGE | IF_ICMPGT | IF_ICMPLE | GOTO
  | INVOKESTATIC | INVOKENATIVE
  | NEW | IMLOAD | IMSTORE | AMLOAD | AMSTORE | CMLOAD | CMSTORE | AADDF
  | NEWARRAY | ARRAYLENGTH | AADDS
  | CHECKTAG | HASTAG | ADDTAG | ADDROF_STATIC | ADDROF_NATIVE | INVOKEDYNAMIC
  deriving DecidableEq, Repr

/-- Every case label. -/
def Opcode.all : List Opcode :=
  [.POP, .DUP, .SWAP, .RETURN,
   .IADD, .ISUB, .IMUL, .IDIV, .IREM, .IAND, .IOR, .IXOR, .ISHR, .ISHL,
   .BIPUSH, .ILDC, .ALDC, .ACONST_NULL,
   .VLOAD, .VSTORE,
   .ATHROW, .ASSERT,
   .NOP, .IF_CMPEQ, .IF_CMPNE, .IF_ICMPLT, .IF_ICMPGE, .IF_ICMPGT, .IF_ICMPLE, .GOTO,
   .INVOKESTATIC, .INVOKENATIVE,
   .NEW, .IMLOAD, .IMSTORE, .AMLOAD, .AMSTORE, .CMLOAD, .CMSTORE, .AADDF,
   .NEWARRAY, .ARRAYLENGTH, .AADDS,
   .CHECKTAG, .HASTAG, .ADDTAG, .ADDROF_STATIC, .ADDROF_NATIVE, .INVOKEDYNAMIC]

/-- The `enum instructions` of lib/c0vm.h, which is not among the sources: the byte value
of every case label.  The values are a parameter of the embedding; as case labels of one
`switch` they are distinct bytes. -/
structure InstructionSet where
  code : Opcode → Nat
  code_lt : ∀ o, code o < 256
  code_inj : ∀ a b, code a = code b → a = b

/-- The case label selected by `switch (b)`, if any. -/
def InstructionSet.decode (I : InstructionSet) (b : Nat) : Option Opcode :=
  Opcode.all.find? (fun o => decide (I.code o = b))

/-- The fields of `struct function_info` that `execute` reads. -/
structure function_info where
  num_args : Nat
  num_vars : Nat
  code : List Nat
  deriving DecidableEq, Repr

/-- The fields of `struct native_info` that `execute` reads. -/
structure native_info where
  num_args : Nat
  function_table_index : Nat
  deriving DecidableEq, Repr

/-- The fields of `struct bc0_file` that `execute` reads. -/
structure bc0_file where
  int_pool : List Int
  string_pool : List Nat
  function_pool : List function_info
  native_pool : List native_info
  deriving DecidableEq, Repr

/-! ## Machine state -/

/-- The `struct frame_info` of the source: a suspended caller. -/
structure frame where
  S : List c0_value
  P : List Nat
  pc : Nat
  V : List c0_value
  deriving DecidableEq, Repr

/-- The variables of `execute` (`S`, `P`, `pc`, `V`, `callStack`) and the heap.  The head
of `S` is the top of the operand stack, the head of `callStack` the most recent frame. -/
structure State where
  S : List c0_value
  P : List Nat
  pc : Nat
  V : List c0_value
  callStack : List frame
  heap : Heap
  deriving DecidableEq, Repr

/-- The runtime errors raised through lib/c0vm_abort.h and by the `default` case. -/
inductive Fault where
  | arith (msg : String) : Fault
  | memory (msg : String) : Fault
  | assertion (msg : Ptr) : Fault
  | user (msg : Ptr) : Fault
  | invalidOpcode (b : Nat) : Fault
  deriving DecidableEq, Repr

/-- What one iteration of the loop of `execute` does. -/
inductive Outcome where
  /-- the loop goes on in the given state -/
  | next (s : State) : Outcome
  /-- `execute` returns `retval` -/
  | ret (retval : Int) : Outcome
  /-- a runtime error is raised in the given state and the process ends -/
  | fault (k : Fault) (s : State) : Outcome
  /-- the `assert` of the terminal `RETURN` fails -/
  | assertFailed (s : State) : Outcome
  /-- an allocation cannot be satisfied and `xcalloc` ends the process -/
  | allocFailed (s : State) : Outcome
  /-- the source does not define what happens -/
  | undef : Outcome
  deriving DecidableEq, Repr

/-- What a call of a native function does: it returns a value (and may have changed the
heap), raises a runtime error, or is undefined on its arguments. -/
inductive NativeResult where
  | ok (res : c0_value) (h : Heap) : NativeResult
  | fault (k : Fault) : NativeResult
  | undef : NativeResult

/-- A host routine: it receives the argument array and the heap. -/
abbrev native_fn := List c0_value → Heap → NativeResult

/-- What `execute` takes from its environment: the instruction encoding of lib/c0vm.h and
the `native_function_table` of lib/c0vm_c0ffi.h. -/
structure Host where
  isa : InstructionSet
  native_function_table : List native_fn

/-! ## Helpers for the body of the loop -/

/-- The statement `pc++`. -/
def State.incPc (s : State) : State := { s with pc := s.pc + 1 }

/-- The call `c0v_push(S, v)`. -/
def State.push (s : State) (v : c0_value) : State := { s with S := v :: s.S }

/-- The call `c0v_pop(S)`; popping an empty stack is undefined. -/
def pop (s : State) (k : c0_value → State → Outcome) : Outcome :=
  match s.S with
  | [] => .undef
  | v :: rest => k v { s with S := rest }

/-- The expression `val2int(c0v_pop(S))`. -/
def popInt (s : State) (k : Int → State → Outcome) : Outcome :=
  pop s fun v s =>
    match val2int v with
    | none => .undef
    | some i => k i s

/-- The expression `val2ptr(c0v_pop(S))`. -/
def popPtr (s : State) (k : Ptr → State → Outcome) : Outcome :=
  pop s fun v s =>
    match val2ptr v with
    | none => .undef
    | some p => k p s

/-- The read `P[i]` of a code byte; reading past the code is undefined. -/
def fetch (s : State) (i : Nat) (k : Nat → Outcome) : Outcome :=
  match s.P[i]? with
  | none => .undef
  | some b => k (b % 256)

/-- The branch `pc = pc + (int16_t)(o1 << 8 | o2)` with `o1 = P[pc+1]`, `o2 = P[pc+2]`. -/
def jump (s : State) : Outcome :=
  fetch s (s.pc + 1) fun o1 =>
  fetch s (s.pc + 2) fun o2 =>
  .next { s with pc := pcAdd s.pc (sext16 (word16 o1 o2)) }

/-- The two branches of a conditional jump. -/
def branch (s : State) (taken : Bool) : Outcome :=
  if taken then jump s else .next { s with pc := s.pc + 3 }

/-- The loop `for (uint8_t i = 0; i < n; i++) A[n - i - 1] = c0v_pop(S);` after `i`
iterations, with `fuel` iterations to go: it yields the array and the stack it leaves. -/
def popArgs (n : Nat) : Nat → Nat → List c0_value → List c0_value →
    Option (List c0_value × List c0_value)
  | 0, _, A, S => some (A, S)
  | fuel + 1, i, A, S =>
    match S with
    | [] => none
    | v :: S' =>
      if n - i - 1 < A.length then popArgs n fuel (i + 1) (A.set (n - i - 1) v) S'
      else none

/-- The result of `xcalloc(sizeof(c0_value), n)`. -/
def zeroValues (n : Nat) : List c0_value := List.replicate n zero_value

/-! ## One iteration of the loop -/

/-- The body of `case op:` of the `switch` in `execute`, run in state `s`. -/
def exec (H : Host) (bc0 : bc0_file) (op : Opcode) (s : State) : Outcome :=
  match op with
  | .POP =>
    let s := s.incPc
    pop s fun _ s => .next s
  | .DUP =>
    let s := s.incPc
    pop s fun v s => .next ((s.push v).push v)
  | .SWAP =>
    let s := s.incPc
    pop s fun first s =>
    pop s fun second s =>
    .next ((s.push first).push second)
  | .RETURN =>
    match s.callStack with
    | [] =>
      popInt s fun retval s =>
      if s.S.isEmpty then .ret retval else .assertFailed s
    | new :: callStack =>
      pop s fun output s =>
      .next { S := output :: new.S, P := new.P, pc := new.pc, V := new.V,
              callStack := callStack, heap := s.heap }
  | .IADD =>
    let s := s.incPc
    popInt s fun first s =>
    popInt s fun second s =>
    .next (s.push (int2val (wrap32 (first + second))))
  | .ISUB =>
    let s := s.incPc
    popInt s fun first s =>
    popInt s fun second s =>
    .next (s.push (int2val (wrap32 (second - first))))
  | .IMUL =>
    let s := s.incPc
    popInt s fun first s =>
    popInt s fun second s =>
    .next (s.push (int2val (wrap32 (first * second))))
  | .IDIV =>
    let s := s.incPc
    popInt s fun first s =>
    popInt s fun second s =>
    if first = 0 ∨ (second = INT32_MIN ∧ first = -1) then
      .fault (.arith "Invalid Division!") s
    else .next (s.push (int2val (Int.tdiv second first)))
  | .IREM =>
    let s := s.incPc
    popInt s fun first s =>
    popInt s fun second s =>
    if first = 0 ∨ (second = INT32_MIN ∧ first = -1) then
      .fault (.arith "Invalid Mod!") s
    else .next (s.push (int2val (Int.tmod second first)))
  | .IAND =>
    let s := s.incPc
    popInt s fun first s =>
    popInt s fun second s =>
    .next (s.push (int2val (Int.land first second)))
  | .IOR =>
    let s := s.incPc
    popInt s fun first s =>
    popInt s fun second s =>
    .next (s.push (int2val (Int.lor first second)))
  | .IXOR =>
    let s := s.incPc
    popInt s fun first s =>
    popInt s fun second s =>
    .next (s.push (int2val (Int.xor first second)))
  | .ISHR =>
    let s := s.incPc
    popInt s fun first s =>
    popInt s fun second s =>
    if first < 0 ∨ first ≥ 32 then .fault (.arith "Invalid Shift!") s
    else .next (s.push (int2val (second >>> first.toNat)))
  | .ISHL =>
    let s := s.incPc
    popInt s fun first s =>
    popInt s fun second s =>
    if first < 0 ∨ first ≥ 32 then .fault (.arith "Invalid Shift!") s
    else .next (s.push (int2val (wrap32 (second * 2 ^ first.toNat))))
  | .BIPUSH =>
    let s := s.incPc
    fetch s s.pc fun b =>
    let s := s.push (int2val (sext8 b))
    .next s.incPc
  | .ILDC =>
    fetch s (s.pc + 1) fun c1 =>
    fetch s (s.pc + 2) fun c2 =>
    let s := { s with pc := s.pc + 3 }
    match bc0.int_pool[word16 c1 c2]? with
    | none => .undef
    | some x => .next (s.push (int2val x))
  | .ALDC =>
    fetch s (s.pc + 1) fun c1 =>
    fetch s (s.pc + 2) fun c2 =>
    let s := { s with pc := s.pc + 3 }
    .next (s.push (ptr2val (.addr 0 (word16 c1 c2))))
  | .ACONST_NULL =>
    let s := s.incPc
    .next (s.push (ptr2val .null))
  | .VLOAD =>
    let s := s.incPc
    fetch s s.pc fun i =>
    match s.V[i]? with
    | none => .undef
    | some v => .next (s.push v).incPc
  | .VSTORE =>
    let s := s.incPc
    pop s fun v s =>
    fetch s s.pc fun i =>
    if i < s.V.length then .next { s with V := s.V.set i v, pc := s.pc + 1 }
    else .undef
  | .ATHROW =>
    let s := s.incPc
    popPtr s fun a s => .fault (.user a) s
  | .ASSERT =>
    let s := s.incPc
    popPtr s fun a s =>
    popInt s fun x s =>
    if x = 0 then .fault (.assertion a) s else .next s
  | .NOP => .next s.incPc
  | .IF_CMPEQ =>
    pop s fun v1 s =>
    pop s fun v2 s =>
    branch s (val_equal v1 v2)
  | .IF_CMPNE =>
    pop s fun v1 s =>
    pop s fun v2 s =>
    branch s (!val_equal v1 v2)
  | .IF_ICMPLT =>
    popInt s fun first s =>
    popInt s fun second s =>
    branch s (decide (second < first))
  | .IF_ICMPGE =>
    popInt s fun first s =>
    popInt s fun second s =>
    branch s (decide (second ≥ first))
  | .IF_ICMPGT =>
    popInt s fun first s =>
    popInt s fun second s =>
    branch s (decide (second > first))
  | .IF_ICMPLE =>
    popInt s fun first s =>
    popInt s fun second s =>
    branch s (decide (second ≤ first))
  | .GOTO => jump s
  | .INVOKESTATIC =>
    fetch s (s.pc + 1) fun c1 =>
    fetch s (s.pc + 2) fun c2 =>
    match bc0.function_pool[word16 c1 c2]? with
    | none => .undef
    | some f =>
      -- a `uint8_t` counter never reaches a bound above 255: the loop pops until the
      -- stack is empty and then pops once more
      if 256 ≤ f.num_args then .undef
      else
        match popArgs f.num_args f.num_args 0 (zeroValues f.num_vars) s.S with
        | none => .undef
        | some (V, S) =>
          -- the saved frame holds the caller's stack object, which the loop has popped
          let new : frame := { S := S, P := s.P, pc := s.pc + 3, V := s.V }
          .next { S := [], P := f.code, pc := 0, V := V,
                  callStack := new :: s.callStack, heap := s.heap }
  | .INVOKENATIVE =>
    fetch s (s.pc + 1) fun c1 =>
    fetch s (s.pc + 2) fun c2 =>
    let s := { s with pc := s.pc + 3 }
    match bc0.native_pool[word16 c1 c2]? with
    | none => .undef
    | some f =>
      let i := f.num_args % 256
      match popArgs i i 0 (zeroValues i) s.S with
      | none => .undef
      | some (new_V, S) =>
        let s := { s with S := S }
        match H.native_function_table[f.function_table_index % 65536]? with
        | none => .undef
        | some address =>
          match address new_V s.heap with
          | .ok res h => .next ({ s with heap := h }.push res)
          | .fault k => .fault k s
          | .undef => .undef
  | .NEW =>
    let s := s.incPc
    fetch s s.pc fun sz =>
    let s := s.incPc
    let p := Ptr.addr s.heap.length 0
    let s := { s with heap := s.heap ++ [List.replicate sz Cell.undef] }
    .next (s.push (ptr2val p))
  | .IMLOAD =>
    let s := s.incPc
    popPtr s fun a s =>
    match a with
    | .null => .fault (.memory "Invalid Access!") s
    | .addr blk off =>
      match s.heap.load32 blk off with
      | none => .undef
      | some x => .next (s.push (int2val x))
  | .IMSTORE =>
    let s := s.incPc
    popInt s fun x s =>
    popPtr s fun a s =>
    match a with
    | .null => .fault (.memory "Invalid Access!") s
    | .addr blk off =>
      match s.heap.store32 blk off x with
      | none => .undef
      | some h => .next { s with heap := h }
  | .AMLOAD =>
    let s := s.incPc
    popPtr s fun a s =>
    match a with
    | .null => .fault (.memory "Invalid Access!") s
    | .addr blk off =>
      match s.heap.loadPtr blk off with
      | none => .undef
      | some b => .next (s.push (ptr2val b))
  | .AMSTORE =>
    let s := s.incPc
    popPtr s fun b s =>
    popPtr s fun a s =>
    match a with
    | .null => .fault (.memory "Invalid Access!") s
    | .addr blk off =>
      match s.heap.storePtr blk off b with
      | none => .undef
      | some h => .next { s with heap := h }
  | .CMLOAD =>
    let s := s.incPc
    popPtr s fun temp s =>
    match temp with
    | .null => .fault (.memory "Invalid Access!") s
    | .addr blk off =>
      match s.heap.load8 blk off with
      | none => .undef
      | some x => .next (s.push (int2val x))
  | .CMSTORE =>
    let s := s.incPc
    popInt s fun x s =>
    popPtr s fun temp s =>
    match temp with
    | .null => .fault (.memory "Invalid Access!") s
    | .addr blk off =>
      match s.heap.store8 blk off (Int.land x 127) with
      | none => .undef
      | some h => .next { s with heap := h }
  | .AADDF =>
    let s := s.incPc
    popPtr s fun temp s =>
    match temp with
    | .null => .fault (.memory "Invalid Access!") s
    | .addr blk off =>
      fetch s s.pc fun f =>
      let s := s.incPc
      .next (s.push (ptr2val (.addr blk (off + f))))
  | .NEWARRAY =>
    let s := s.incPc
    fetch s s.pc fun sz =>
    let s := s.incPc
    popInt s fun n s =>
    if n < 0 then .fault (.memory "Invalid Element!") s
    else
      let a := s.heap.length
      let elem := s.heap.length + 1
      -- the size `s * n` is a product of `int`s, converted to `size_t` at the call
      let size := toSizeT (wrap32 ((sz : Int) * n))
      if allocLimit ≤ size then .allocFailed s
      else
        let storage := List.replicate size (Cell.byte 0)
        let header := arrayHeader n sz (.addr elem 0)
        let s := { s with heap := s.heap ++ [header, storage] }
        .next (s.push (ptr2val (.addr a 0)))
  | .ARRAYLENGTH =>
    let s := s.incPc
    popPtr s fun temp s =>
    match temp with
    | .null => .fault (.memory "Invalid Access!") s
    | .addr blk off =>
      match s.heap.load32 blk off with
      | none => .undef
      | some res =>
        if res < 0 then .fault (.memory "Invalid Length!") s
        else .next (s.push (int2val res))
  | .AADDS =>
    let s := s.incPc
    popInt s fun i s =>
    popPtr s fun temp s =>
    match temp with
    | .null => .fault (.memory "Error!") s
    | .addr blk off =>
      if i < 0 then .fault (.memory "Error!") s
      else
        match s.heap.load32 blk off with
        | none => .undef
        | some count =>
          if count ≤ i then .fault (.memory "Error!") s
          else
            match s.heap.loadPtr blk (off + 8), s.heap.loadU32 blk (off + 4) with
            | some (.addr eblk eoff), some elt_size =>
              -- `elt_size * i` is a product of 32-bit unsigned integers
              .next (s.push (ptr2val (.addr eblk (eoff + (elt_size * i.toNat) % 4294967296))))
            | _, _ => .undef
  | .CHECKTAG | .HASTAG | .ADDTAG | .ADDROF_STATIC | .ADDROF_NATIVE | .INVOKEDYNAMIC =>
    fetch s s.pc fun b => .fault (.invalidOpcode b) s

/-- One iteration of `while (true) { switch (P[pc]) ... }`. -/
def step (H : Host) (bc0 : bc0_file) (s : State) : Outcome :=
  fetch s s.pc fun b =>
    match H.isa.decode b with
    | none => .fault (.invalidOpcode b) s
    | some op => exec H bc0 op s

/-- The state on entry to the loop of `execute`: the code of the first function of the
pool, `pc = 0`, an empty operand stack, zeroed locals and an empty call stack.  Block 0 of
the heap is the string pool. -/
def initial (bc0 : bc0_file) : Option State :=
  match bc0.function_pool[0]? with
  | none => none
  | some f =>
    some { S := [], P := f.code, pc := 0, V := zeroValues f.num_vars, callStack := [],
           heap := [bc0.string_pool.map Cell.byte] }

/-- At most `fuel` iterations of the loop from state `s`: the outcome that ends the loop,
or `Outcome.next` of the state reached when the fuel runs out first. -/
def run (H : Host) (bc0 : bc0_file) : Nat → State → Outcome
  | 0, s => .next s
  | fuel + 1, s =>
    match step H bc0 s with
    | .next s' => run H bc0 fuel s'
    | o => o

/-- The function `execute`, run for at most `fuel` iterations of its loop. -/
def execute (H : Host) (bc0 : bc0_file) (fuel : Nat) : Outcome :=
  match initial bc0 with
  | none => .undef
  | some s => run H bc0 fuel s

/-- Exactly `n` successful iterations of the loop from `s`, if none of them ends it. -/
def steps (H : Host) (bc0 : bc0_file) : Nat → State → Option State
  | 0, s => some s
  | n + 1, s =>
    match step H bc0 s with
    | .next s' => steps H bc0 n s'
    | _ => none

/-- Exactly `n` successful iterations from `s` during which the call stack, in `s`, in the
state reached and in every state in between, is deeper than `d`: the run of a callee
entered at depth `d + 1`, nested calls included, up to but not including the step that
returns to depth `d`. -/
def stepsAbove (H : Host) (bc0 : bc0_file) (d : Nat) : Nat → State → Option State
  | 0, s => if d < s.callStack.length then some s else none
  | n + 1, s =>
    if d < s.callStack.length then
      match step H bc0 s with
      | .next s' => stepsAbove H bc0 d n s'
      | _ => none
    else none

/-! ## The reference instruction encoding -/

/-- The byte values of the C0VM instruction set (the JVM-derived numbering), used to run
the embedding on concrete byte code. -/
def c0vmCode : Opcode → Nat
  | .NOP => 0x00 | .ACONST_NULL => 0x01 | .BIPUSH => 0x10 | .ILDC => 0x13 | .ALDC => 0x14
  | .VLOAD => 0x15 | .ADDROF_STATIC => 0x16 | .ADDROF_NATIVE => 0x17
  | .IMLOAD => 0x2E | .AMLOAD => 0x2F | .CMLOAD => 0x34 | .VSTORE => 0x36
  | .IMSTORE => 0x4E | .AMSTORE => 0x4F | .CMSTORE => 0x55 | .POP => 0x57 | .DUP => 0x59
  | .SWAP => 0x5F | .IADD => 0x60 | .AADDF => 0x62 | .AADDS => 0x63 | .ISUB => 0x64
  | .IMUL => 0x68 | .IDIV => 0x6C | .IREM => 0x70 | .ISHL => 0x78 | .ISHR => 0x7A
  | .IAND => 0x7E | .IOR => 0x80 | .IXOR => 0x82
  | .IF_CMPEQ => 0x9F | .IF_CMPNE => 0xA0 | .IF_ICMPLT => 0xA1 | .IF_ICMPGE => 0xA2
  | .IF_ICMPGT => 0xA3 | .IF_ICMPLE => 0xA4 | .GOTO => 0xA7 | .RETURN => 0xB0
  | .INVOKEDYNAMIC => 0xB6 | .INVOKENATIVE => 0xB7 | .INVOKESTATIC => 0xB8
  | .NEW => 0xBB | .NEWARRAY => 0xBC | .ARRAYLENGTH => 0xBE | .ATHROW => 0xBF
  | .CHECKTAG => 0xC0 | .HASTAG => 0xC1 | .ADDTAG => 0xC2 | .ASSERT => 0xCF

/-- The reference instruction encoding. -/
def c0vm : InstructionSet where
  code := c0vmCode
  code_lt := by intro o; cases o <;> decide
  code_inj := by
    have find : ∀ o : Opcode,
        Opcode.all.find? (fun x => decide (c0vmCode x = c0vmCode o)) = some o := by
      intro o; cases o <;> rfl
    intro a b h
    have ha := find a
    rw [h, find b] at ha
    exact (Option.some.inj ha).symm

/-- A host with the reference encoding and no native functions. -/
def c0vmHost : Host := { isa := c0vm, native_function_table := [] }

/-! ## Concrete programs and states used to instantiate the results -/

/-- A module with a single function and empty pools. -/
def moduleOf (code : List Nat) (num_vars : Nat) : bc0_file :=
  { int_pool := [], string_pool := [],
    function_pool := [{ num_args := 0, num_vars := num_vars, code := code }],
    native_pool := [] }

/-- A state in the middle of a run of the given code, with an empty call stack and heap. -/
def stateAt (code : List Nat) (pc : Nat) (S : List c0_value) : State :=
  { S := S, P := code, pc := pc, V := [], callStack := [], heap := [] }

/-- A module whose entry function pushes 10 and 3 and calls function 1, which has two
parameters and three local slots. -/
def callModule : bc0_file :=
  { int_pool := [], string_pool := [],
    function_pool :=
      [{ num_args := 0, num_vars := 0, code := [0x10, 10, 0x10, 3, 0xB8, 0, 1, 0xB0] },
       { num_args := 2, num_vars := 3, code := [0x15, 0, 0x15, 1, 0x64, 0xB0] }],
    native_pool := [] }

/-- The operand byte that encodes the signed 8-bit immediate `a`. -/
def imm8 (a : Int) : Nat := (a % 256).toNat

/-- The entry function `BIPUSH a; BIPUSH b; IADD; RETURN`. -/
def addBody (I : InstructionSet) (a b : Int) : List Nat :=
  [I.code .BIPUSH, imm8 a, I.code .BIPUSH, imm8 b, I.code .IADD, I.code .RETURN]

/-- The entry function `BIPUSH a; BIPUSH b; INVOKESTATIC 1; BIPUSH 1; IADD; RETURN`. -/
def callerBody (I : InstructionSet) (a b : Int) : List Nat :=
  [I.code .BIPUSH, imm8 a, I.code .BIPUSH, imm8 b, I.code .INVOKESTATIC, 0, 1,
   I.code .BIPUSH, 1, I.code .IADD, I.code .RETURN]

/-- The function `VLOAD 0; VLOAD 1; op; RETURN`. -/
def calleeBody (I : InstructionSet) (op : Opcode) : List Nat :=
  [I.code .VLOAD, 0, I.code .VLOAD, 1, I.code op, I.code .RETURN]

/-- The module of scenario C: the entry function above and, as function 1, a function of
two parameters and two locals that combines its parameters with `op`. -/
def scenarioC (I : InstructionSet) (a b : Int) (op : Opcode) : bc0_file :=
  { int_pool := [], string_pool := [],
    function_pool :=
      [{ num_args := 0, num_vars := 0, code := callerBody I a b },
       { num_args := 2, num_vars := 2, code := calleeBody I op }],
    native_pool := [] }

/-- The call of `callModule`: the caller at its `INVOKESTATIC` with 3, 10 and 77 on the
stack. -/
def atInvoke : State :=
  stateAt [0x10, 10, 0x10, 3, 0xB8, 0, 1, 0xB0] 4 [.int 3, .int 10, .int 77]

/-- The frame the invoke of `atInvoke` pushes. -/
def savedFrame : frame :=
  { S := [.int 77], P := [0x10, 10, 0x10, 3, 0xB8, 0, 1, 0xB0], pc := 7, V := [] }

/-- The callee of `callModule` at position `pc` with operand stack `S`. -/
def inCallee (pc : Nat) (S : List c0_value) : State :=
  { S := S, P := [0x15, 0, 0x15, 1, 0x64, 0xB0], pc := pc, V := [.int 10, .int 3, .int 0],
    callStack := [savedFrame], heap := [] }

/-- The caller of `callModule` resumed after the call. -/
def afterReturn : State :=
  stateAt [0x10, 10, 0x10, 3, 0xB8, 0, 1, 0xB0] 7 [.int 7, .int 77]

/-- The state after a successful `NEWARRAY sz` that pops the count `n`. -/
def afterNewarray (s : State) (sz : Nat) (n : Int) (rest : List c0_value) : State :=
  { s with
    S := .ptr (.addr s.heap.length 0) :: rest
    pc := s.pc + 2
    heap := s.heap ++ [arrayHeader n sz (.addr (s.heap.length + 1) 0),
                       List.replicate (toSizeT (wrap32 ((sz : Int) * n))) (Cell.byte 0)] }

/-- A module that allocates an array of `2^30 + 1` elements of 4 bytes and takes the address
of the element with index `2^30`: `ILDC 0; NEWARRAY 4; ILDC 1; AADDS; RETURN`. -/
def bigArrayModule : bc0_file :=
  { int_pool := [1073741825, 1073741824], string_pool := [],
    function_pool :=
      [{ num_args := 0, num_vars := 0, code := [0x13, 0, 0, 0xBC, 4, 0x13, 0, 1, 0x63, 0xB0] }],
    native_pool := [] }

/-- A state at a `CMLOAD` (the only instruction of the code) with the given operand stack
and a heap of one four-byte block. -/
def loadState (S : List c0_value) : State :=
  { S := S, P := [0x34], pc := 0, V := [], callStack := [],
    heap := [[.byte 1, .byte 2, .byte 3, .byte 4]] }

/-- The operand stack a branch instruction leaves when it is taken: `some rest` when `op`
is `GOTO`, or a conditional branch whose predicate (as written in its case of the loop)
holds of the two values it pops; `none` when `op` is no branch, the stack is too short or
of the wrong kinds, or the predicate fails. -/
def branchTaken : Opcode → List c0_value → Option (List c0_value)
  | .GOTO, S => some S
  | .IF_CMPEQ, v1 :: v2 :: rest => if val_equal v1 v2 then some rest else none
  | .IF_CMPNE, v1 :: v2 :: rest => if !val_equal v1 v2 then some rest else none
  | .IF_ICMPLT, .int first :: .int second :: rest => if second < first then some rest else none
  | .IF_ICMPGE, .int first :: .int second :: rest => if second ≥ first then some rest else none
  | .IF_ICMPGT, .int first :: .int second :: rest => if second > first then some rest else none
  | .IF_ICMPLE, .int first :: .int second :: rest => if second ≤ first then some rest else none
  | _, _ => none

/-- Ten `NOP`s followed by `GOTO` with the operand bytes `0xFF 0xFD`, at position 10. -/
def backwardGoto : List Nat := [0, 0, 0, 0, 0, 0, 0, 0, 0, 0, 0xA7, 0xFF, 0xFD]

/-- The signed comparison a conditional integer branch tests, with the value pushed first
as the left operand; `false` for every other opcode. -/
def icmpHolds (op : Opcode) (x y : Int) : Bool :=
  match op with
  | .IF_ICMPLT => decide (x < y)
  | .IF_ICMPGE => decide (x ≥ y)
  | .IF_ICMPGT => decide (x > y)
  | .IF_ICMPLE => decide (x ≤ y)
  | _ => false

/-- The code `IF_ICMPLT +6` followed by five `NOP`s. -/
def compareCode : List Nat := [0xA1, 0, 6, 0, 0, 0, 0, 0]

/-- The code `IF_CMPEQ +6` followed by five `NOP`s. -/
def equalCode : List Nat := [0x9F, 0, 6, 0, 0, 0, 0, 0]

/-- A module that allocates an array of `2^30 + 1` elements of 4 bytes and loads the element
with index 1: `ILDC 0; NEWARRAY 4; BIPUSH 1; AADDS; IMLOAD; RETURN`. -/
def bigArrayLoadModule : bc0_file :=
  { int_pool := [1073741825], string_pool := [],
    function_pool :=
      [{ num_args := 0, num_vars := 0,
         code := [0x13, 0, 0, 0xBC, 4, 0x10, 1, 0x63, 0x2E, 0xB0] }],
    native_pool := [] }

/-- A host routine that returns its first argument. -/
def firstArg : native_fn := fun args h =>
  match args with
  | [] => .undef
  | v :: _ => .ok v h

/-- A host with the reference encoding whose table holds `firstArg` in slot 0. -/
def nativeHost : Host := { isa := c0vm, native_function_table := [firstArg] }

/-- A module whose entry function is `INVOKENATIVE 0; RETURN` and whose native 0 has two
parameters and table slot 0. -/
def nativeModule : bc0_file :=
  { int_pool := [], string_pool := [],
    function_pool := [{ num_args := 0, num_vars := 0, code := [0xB7, 0, 0, 0xB0] }],
    native_pool := [{ num_args := 2, function_table_index := 0 }] }

/-- A state whose heap is one block of eight unwritten bytes, at the instruction at
position `pc` of `code`. -/
def memState (code : List Nat) (pc : Nat) (S : List c0_value) : State :=
  { S := S, P := code, pc := pc, V := [], callStack := [],
    heap := [List.replicate 8 Cell.undef] }

/-- The state `memState` is in after the byte 72 has been stored at offset 0 of its block. -/
def storedState (code : List Nat) (pc : Nat) (S : List c0_value) : State :=
  { S := S, P := code, pc := pc, V := [], callStack := [],
    heap := [Cell.byte 72 :: List.replicate 7 Cell.undef] }

/-- Whether the instruction at `s` can write into heap block `blk`: a store whose target
reference lies in that block, or a native call. -/
def writesBlock (H : Host) (s : State) (blk : Nat) : Bool :=
  match s.P[s.pc]? with
  | none => false
  | some b =>
    match H.isa.decode (b % 256) with
    | some .INVOKENATIVE => true
    | some op =>
      if op = .IMSTORE ∨ op = .AMSTORE ∨ op = .CMSTORE then
        match s.S with
        | _ :: .ptr (.addr b' _) :: _ => decide (b' = blk)
        | _ => false
      else false
    | none => false

/-- Exactly `n` successful iterations from `s`, none of which can write into heap block
`blk`. -/
def stepsKeeping (H : Host) (bc0 : bc0_file) (blk : Nat) : Nat → State → Option State
  | 0, s => some s
  | n + 1, s =>
    if writesBlock H s blk then none
    else
      match step H bc0 s with
      | .next s' => stepsKeeping H bc0 blk n s'
      | _ => none

/-- The runtime error an outcome raises, if it is one. -/
def Outcome.raised : Outcome → Option Fault
  | .fault k _ => some k
  | _ => none

/-- A module that makes an array of one 4-byte element, stores -1 through the array
reference and asks for the length:
`BIPUSH 1; NEWARRAY 4; DUP; BIPUSH -1; IMSTORE; ARRAYLENGTH; RETURN`. -/
def overwriteModule : bc0_file :=
  { int_pool := [], string_pool := [],
    function_pool :=
      [{ num_args := 0, num_vars := 0,
         code := [0x10, 1, 0xBC, 4, 0x59, 0x10, 0xFF, 0x4E, 0xBE, 0xB0] }],
    native_pool := [] }

/-- The code `NEWARRAY 4; DUP; POP; ARRAYLENGTH`. -/
def lengthCode : List Nat := [0xBC, 4, 0x59, 0x57, 0xBE]

/-- The state at position `pc` of `lengthCode` once its array of one 4-byte element (heap
block 0, storage in block 1) exists. -/
def lengthState (pc : Nat) (S : List c0_value) : State :=
  { S := S, P := lengthCode, pc := pc, V := [], callStack := [],
    heap := [arrayHeader 1 4 (.addr 1 0), [.byte 0, .byte 0, .byte 0, .byte 0]] }

/-- A module that asks for an array of `2^29` elements of 4 bytes and then for its length:
`ILDC 0; NEWARRAY 4; ARRAYLENGTH; RETURN`. -/
def hugeArrayModule : bc0_file :=
  { int_pool := [536870912], string_pool := [],
    function_pool :=
      [{ num_args := 0, num_vars := 0, code := [0x13, 0, 0, 0xBC, 4, 0xBE, 0xB0] }],
    native_pool := [] }

/-- The state of a run of `hugeArrayModule` at position `pc` with operand stack `S`. -/
def hugeArrayState (pc : Nat) (S : List c0_value) : State :=
  { S := S, P := [0x13, 0, 0, 0xBC, 4, 0xBE, 0xB0], pc := pc, V := [], callStack := [],
    heap := [[]] }

/-- A host routine that returns the number of arguments it is given. -/
def countArgs : native_fn := fun args h => .ok (.int args.length) h

/-- A host with the reference encoding whose table holds `countArgs` in slot 0. -/
def countHost : Host := { isa := c0vm, native_function_table := [countArgs] }

/-- A module whose entry function is `INVOKENATIVE 0; RETURN` and whose native 0 has 258
parameters and table slot 0. -/
def wideNativeModule : bc0_file :=
  { int_pool := [], string_pool := [],
    function_pool := [{ num_args := 0, num_vars := 0, code := [0xB7, 0, 0, 0xB0] }],
    native_pool := [{ num_args := 258, function_table_index := 0 }] }

/-! # Properties -/

/-! ## Basic facts -/

theorem Opcode.mem_all (o : Opcode) : o ∈ Opcode.all := by
  cases o <;> simp [Opcode.all]

theorem InstructionSet.decode_code (I : InstructionSet) (o : Opcode) :
    I.decode (I.code o) = some o := by
  unfold InstructionSet.decode
  cases h : Opcode.all.find? (fun x => decide (I.code x = I.code o)) with
  | none =>
    rw [List.find?_eq_none] at h
    exact absurd (h o (Opcode.mem_all o)) (by simp)
  | some x =>
    have hx := List.find?_some h
    simp only [decide_eq_true_eq] at hx
    rw [I.code_inj x o hx]

/-- When the byte at `pc` is the code of `op`, the loop runs the body of `case op`. -/
theorem step_eq_exec (H : Host) (bc0 : bc0_file) (s : State) (op : Opcode)
    (h : s.P[s.pc]? = some (H.isa.code op)) : step H bc0 s = exec H bc0 op s := by
  unfold step fetch
  rw [h]
  simp only [Nat.mod_eq_of_lt (H.isa.code_lt op), InstructionSet.decode_code]

theorem wrap32_isInt32 (x : Int) : isInt32 (wrap32 x) := by
  unfold isInt32 wrap32; omega

theorem wrap32_of_isInt32 {x : Int} (h : isInt32 x) : wrap32 x = x := by
  unfold isInt32 at h; unfold wrap32; omega

theorem wrap32_congr (x : Int) : (wrap32 x - x) % 4294967296 = 0 := by
  unfold wrap32; omega

/-! ## Arithmetic -/

/-- C1: for 32-bit integers `a` (pushed first) and `b` (on top), one step at `ISUB` replaces
the two entries by the one integer `r` in the 32-bit range that is congruent to `a - b`
modulo `2^32`, leaves the rest of the stack, the locals, the code, the call stack and the heap
as they were and advances `pc` by 1; for `a = 10`, `b = 3` the result is 7. -/
theorem isub_step (H : Host) (bc0 : bc0_file) (s : State) (a b : Int) (rest : List c0_value)
    (ha : isInt32 a) (hb : isInt32 b)
    (hop : s.P[s.pc]? = some (H.isa.code .ISUB))
    (hS : s.S = .int b :: .int a :: rest) :
    ∃ r : Int, isInt32 r ∧ (r - (a - b)) % 4294967296 = 0 ∧ r = wrap32 (a - b) ∧
      step H bc0 s = .next { s with S := .int r :: rest, pc := s.pc + 1 } ∧
      (a = 10 → b = 3 → r = 7) := by
  have _ := ha
  have _ := hb
  refine ⟨wrap32 (a - b), wrap32_isInt32 _, wrap32_congr _, rfl, ?_, ?_⟩
  · rw [step_eq_exec H bc0 s .ISUB hop]
    simp [exec, popInt, pop, State.incPc, State.push, hS, val2int, int2val]
  · rintro rfl rfl
    decide

/-- The subtraction law at 10 and 3 under the reference encoding. -/
theorem isub_step_witness :
    step c0vmHost (moduleOf [0x64] 0) (stateAt [0x64] 0 [.int 3, .int 10])
      = .next (stateAt [0x64] 1 [.int 7]) := by
  obtain ⟨r, _, _, hr, hstep, h7⟩ :=
    isub_step c0vmHost (moduleOf [0x64] 0) (stateAt [0x64] 0 [.int 3, .int 10]) 10 3 []
      (by decide) (by decide) (by decide) rfl
  rw [hstep, h7 rfl rfl]
  rfl

theorem natAbs_tmod (a b : Int) : (Int.tmod a b).natAbs = a.natAbs % b.natAbs := by
  cases a <;> cases b <;> simp [Int.tmod, Int.natAbs_neg] <;> rfl

theorem tmod_nonpos (a b : Int) (h : a ≤ 0) : Int.tmod a b ≤ 0 := by
  have h1 : Int.tmod a b = -Int.tmod (-a) b := by
    cases a with
    | ofNat n =>
      cases n with
      | zero => simp
      | succ m => exact absurd h (by simp)
    | negSucc n =>
      cases b <;> simp [Int.tmod, Int.neg_negSucc] <;> rfl
  rw [h1]
  have := Int.tmod_nonneg b (show 0 ≤ -a by omega)
  omega

/-- The remainder of the truncating division: smaller than the divisor in absolute value,
and zero or of the sign of the dividend. -/
theorem tmod_spec (a b : Int) (hb : b ≠ 0) :
    a = Int.tdiv a b * b + Int.tmod a b ∧ |Int.tmod a b| < |b| ∧
      (Int.tmod a b = 0 ∨ (0 < Int.tmod a b ∧ 0 < a) ∨ (Int.tmod a b < 0 ∧ a < 0)) := by
  refine ⟨by have := Int.tdiv_add_tmod a b; linarith [mul_comm b (a.tdiv b)], ?_, ?_⟩
  · have h := natAbs_tmod a b
    have hpos : 0 < b.natAbs := Int.natAbs_pos.mpr hb
    have hlt : (Int.tmod a b).natAbs < b.natAbs := by
      rw [h]; exact Nat.mod_lt _ hpos
    rw [Int.abs_eq_natAbs, Int.abs_eq_natAbs]
    exact_mod_cast hlt
  · rcases lt_trichotomy a 0 with h | h | h
    · have := tmod_nonpos a b (le_of_lt h)
      rcases eq_or_lt_of_le this with h0 | h0
      · exact Or.inl h0
      · exact Or.inr (Or.inr ⟨h0, h⟩)
    · subst h; simp
    · have := Int.tmod_nonneg b (le_of_lt h)
      rcases eq_or_lt_of_le this with h0 | h0
      · exact Or.inl h0.symm
      · exact Or.inr (Or.inl ⟨h0, h⟩)

/-- The truncated quotient of two 32-bit integers is a 32-bit integer, except for
`INT32_MIN / -1`. -/
theorem tdiv_isInt32 (a b : Int) (ha : isInt32 a) (hb : b ≠ 0)
    (hmin : ¬ (a = INT32_MIN ∧ b = -1)) : isInt32 (Int.tdiv a b) := by
  obtain ⟨h1, h2, h3⟩ := tmod_spec a b hb
  unfold isInt32 INT32_MIN at *
  generalize Int.tdiv a b = q at *
  generalize Int.tmod a b = r at *
  rw [abs_lt] at h2
  have hq : |q| ≤ |a| := by
    by_contra hc
    push_neg at hc
    have hb1 : 1 ≤ |b| := Int.one_le_abs hb
    have h4 : |q * b| = |q| * |b| := abs_mul q b
    have h5 : |a| + 1 ≤ |q| := hc
    have h6 : |q| ≤ |q * b| := by rw [h4]; nlinarith [abs_nonneg q]
    -- the product and the remainder have the sign of `a`, so `|a| = |q*b| + |r|`
    rcases h3 with h0 | ⟨hr, hpa⟩ | ⟨hr, hna⟩
    · have : a = q * b := by omega
      rw [this] at h5; omega
    · rcases le_or_lt 0 (q * b) with hqb | hqb
      · rw [abs_of_pos hpa] at h5
        rw [abs_of_nonneg hqb] at h6
        omega
      · have hbb : |r| < |b| := abs_lt.mpr h2
        have : |q * b| < |b| := by
          rw [abs_of_neg hqb, abs_of_pos hr] at *
          omega
        rw [h4] at this
        have hq0 : |q| < 1 := by
          by_contra hq1
          push_neg at hq1
          nlinarith [abs_nonneg b]
        have : 0 ≤ |a| := abs_nonneg a
        omega
    · rcases le_or_lt (q * b) 0 with hqb | hqb
      · rw [abs_of_neg hna] at h5
        rw [abs_of_nonpos hqb] at h6
        omega
      · have hbb : |r| < |b| := abs_lt.mpr h2
        have : |q * b| < |b| := by
          rw [abs_of_pos hqb, abs_of_neg hr] at *
          omega
        rw [h4] at this
        have hq0 : |q| < 1 := by
          by_contra hq1
          push_neg at hq1
          nlinarith [abs_nonneg b]
        have : 0 ≤ |a| := abs_nonneg a
        omega
  have ha' : |a| ≤ 2147483648 := by rw [abs_le]; omega
  have hq' := abs_le.mp (le_trans hq ha')
  refine ⟨hq'.1, ?_⟩
  by_contra hc
  have hq2 : q = 2147483648 := by omega
  -- then `|a| = 2^31`, so `a = INT32_MIN`, and `b = -1`
  have ha2 : |a| = 2147483648 := by
    rw [hq2] at hq
    have : |(2147483648 : Int)| = 2147483648 := by norm_num
    omega
  have ha3 : a = -2147483648 := by
    rcases abs_eq (by norm_num : (0 : Int) ≤ 2147483648) |>.mp ha2 with h | h
    · omega
    · exact h
  apply hmin
  refine ⟨ha3, ?_⟩
  subst hq2
  subst ha3
  rcases abs_cases b with ⟨hb1, hb2⟩ | ⟨hb1, hb2⟩ <;>
    rcases h3 with h0 | ⟨hr, hpa⟩ | ⟨hr, _⟩ <;> omega

/-- C2: for 32-bit integers `a` (pushed first, the dividend) and `b` (on top, the divisor),
a step at `IDIV` or `IREM` raises the arithmetic error if and only if `b = 0` or
(`a = INT32_MIN` and `b = -1`); in every other case `IDIV` pushes the quotient `q` and `IREM`
the remainder `r` of the division truncated toward zero: `a = q * b + r`, `|r| < |b|`, and `r`
is zero or has the sign of `a`; both are 32-bit integers, and the step advances `pc` by 1 and
changes nothing else. -/
theorem idiv_irem_step (H : Host) (bc0 : bc0_file) (s : State) (a b : Int)
    (rest : List c0_value) (op : Opcode)
    (ha : isInt32 a) (hb : isInt32 b)
    (hop : op = .IDIV ∨ op = .IREM)
    (hpc : s.P[s.pc]? = some (H.isa.code op))
    (hS : s.S = .int b :: .int a :: rest) :
    ((∃ msg t, step H bc0 s = .fault (.arith msg) t) ↔ (b = 0 ∨ (a = INT32_MIN ∧ b = -1))) ∧
    (¬ (b = 0 ∨ (a = INT32_MIN ∧ b = -1)) →
      ∃ q r : Int, q = Int.tdiv a b ∧ r = Int.tmod a b ∧
        a = q * b + r ∧ |r| < |b| ∧ (r = 0 ∨ (0 < r ∧ 0 < a) ∨ (r < 0 ∧ a < 0)) ∧
        isInt32 q ∧ isInt32 r ∧
        step H bc0 s = .next { s with S := .int (if op = .IDIV then q else r) :: rest,
                                      pc := s.pc + 1 }) := by
  have _ := hb
  rw [step_eq_exec H bc0 s op hpc]
  by_cases hf : b = 0 ∨ (a = INT32_MIN ∧ b = -1)
  · refine ⟨⟨fun _ => hf, fun _ => ?_⟩, fun h => absurd hf h⟩
    rcases hop with rfl | rfl <;>
      simp [exec, popInt, pop, State.incPc, hS, val2int, hf]
  · have hb0 : b ≠ 0 := fun h => hf (Or.inl h)
    have hmin : ¬ (a = INT32_MIN ∧ b = -1) := fun h => hf (Or.inr h)
    obtain ⟨h1, h2, h3⟩ := tmod_spec a b hb0
    have hq := tdiv_isInt32 a b ha hb0 hmin
    have hr : isInt32 (Int.tmod a b) := by
      have hb' := hb
      unfold isInt32 at hb' ⊢
      rcases abs_cases b with ⟨e1, e2⟩ | ⟨e1, e2⟩ <;>
        rcases abs_cases (Int.tmod a b) with ⟨f1, f2⟩ | ⟨f1, f2⟩ <;> omega
    refine ⟨⟨fun h => ?_, fun h => absurd h hf⟩, fun _ =>
      ⟨Int.tdiv a b, Int.tmod a b, rfl, rfl, h1, h2, h3, hq, hr, ?_⟩⟩
    · obtain ⟨msg, t, ht⟩ := h
      rcases hop with rfl | rfl <;>
        simp [exec, popInt, pop, State.incPc, State.push, hS, val2int, int2val, hf] at ht
    · rcases hop with rfl | rfl <;>
        simp [exec, popInt, pop, State.incPc, State.push, hS, val2int, int2val, hf]

/-- The division law at 7 and -2: the quotient is -3. -/
theorem idiv_irem_step_witness :
    step c0vmHost (moduleOf [0x6C] 0) (stateAt [0x6C] 0 [.int (-2), .int 7])
      = .next (stateAt [0x6C] 1 [.int (-3)]) := by
  obtain ⟨_, h⟩ :=
    idiv_irem_step c0vmHost (moduleOf [0x6C] 0) (stateAt [0x6C] 0 [.int (-2), .int 7]) 7 (-2) []
      .IDIV (by decide) (by decide) (Or.inl rfl) (by decide) rfl
  obtain ⟨q, r, hq, _, _, _, _, _, _, hstep⟩ := h (by decide)
  rw [hstep, hq]
  rfl

/-- The arithmetic right shift is the floor of the division by the power of two. -/
theorem shiftRight_floor (x : Int) (n : Nat) :
    (x >>> n) * 2 ^ n ≤ x ∧ x < (x >>> n + 1) * 2 ^ n := by
  rw [Int.shiftRight_eq_div_pow]
  have hpos : (0 : Int) < ((2 ^ n : Nat) : Int) := by positivity
  have hcast : ((2 ^ n : Nat) : Int) = (2 : Int) ^ n := by push_cast; rfl
  rw [← hcast]
  constructor
  · exact Int.ediv_mul_le x (ne_of_gt hpos)
  · have := Int.lt_ediv_add_one_mul_self x hpos
    linarith

/-- C3: for a 32-bit integer `x` (pushed first) and a shift amount `sh` (on top), a step at
`ISHL` or `ISHR` raises the arithmetic error if and only if `sh < 0` or `sh ≥ 32`; otherwise
`ISHL` pushes the 32-bit integer congruent to `x * 2^sh` modulo `2^32` and `ISHR` pushes
`floor (x / 2^sh)`, the arithmetic right shift, which keeps the sign of `x`; the step
advances `pc` by 1 and changes nothing else. -/
theorem ishl_ishr_step (H : Host) (bc0 : bc0_file) (s : State) (x sh : Int)
    (rest : List c0_value) (op : Opcode)
    (hx : isInt32 x) (hsh : isInt32 sh)
    (hop : op = .ISHL ∨ op = .ISHR)
    (hpc : s.P[s.pc]? = some (H.isa.code op))
    (hS : s.S = .int sh :: .int x :: rest) :
    ((∃ msg t, step H bc0 s = .fault (.arith msg) t) ↔ (sh < 0 ∨ sh ≥ 32)) ∧
    (¬ (sh < 0 ∨ sh ≥ 32) →
      ∃ l r : Int,
        isInt32 l ∧ (l - x * 2 ^ sh.toNat) % 4294967296 = 0 ∧
        r * 2 ^ sh.toNat ≤ x ∧ x < (r + 1) * 2 ^ sh.toNat ∧ isInt32 r ∧ (r < 0 ↔ x < 0) ∧
        step H bc0 s = .next { s with S := .int (if op = .ISHL then l else r) :: rest,
                                      pc := s.pc + 1 }) := by
  have _ := hsh
  rw [step_eq_exec H bc0 s op hpc]
  by_cases hf : sh < 0 ∨ sh ≥ 32
  · refine ⟨⟨fun _ => hf, fun _ => ?_⟩, fun h => absurd hf h⟩
    rcases hop with rfl | rfl <;>
      simp [exec, popInt, pop, State.incPc, hS, val2int, hf]
  · obtain ⟨f1, f2⟩ := shiftRight_floor x sh.toNat
    have hpos : (0 : Int) < 2 ^ sh.toNat := by positivity
    have hone : (1 : Int) ≤ 2 ^ sh.toNat := by omega
    have hsign : (x >>> sh.toNat < 0 ↔ x < 0) := by
      constructor
      · intro h; nlinarith
      · intro h
        by_contra hc
        push_neg at hc
        nlinarith
    have hr : isInt32 (x >>> sh.toNat) := by
      unfold isInt32 at hx ⊢
      constructor
      · by_contra hc
        push_neg at hc
        nlinarith
      · by_contra hc
        push_neg at hc
        nlinarith
    refine ⟨⟨fun h => ?_, fun h => absurd h hf⟩, fun _ =>
      ⟨wrap32 (x * 2 ^ sh.toNat), x >>> sh.toNat, wrap32_isInt32 _, wrap32_congr _,
        f1, f2, hr, hsign, ?_⟩⟩
    · obtain ⟨msg, t, ht⟩ := h
      rcases hop with rfl | rfl <;>
        simp [exec, popInt, pop, State.incPc, State.push, hS, val2int, int2val, hf] at ht
    · rcases hop with rfl | rfl <;>
        simp [exec, popInt, pop, State.incPc, State.push, hS, val2int, int2val, hf]

/-- The shift law at -7 and 1: the arithmetic right shift gives -4. -/
theorem ishl_ishr_step_witness :
    step c0vmHost (moduleOf [0x7A] 0) (stateAt [0x7A] 0 [.int 1, .int (-7)])
      = .next (stateAt [0x7A] 1 [.int (-4)]) := by
  obtain ⟨_, h⟩ :=
    ishl_ishr_step c0vmHost (moduleOf [0x7A] 0) (stateAt [0x7A] 0 [.int 1, .int (-7)]) (-7) 1 []
      .ISHR (by decide) (by decide) (Or.inr rfl) (by decide) rfl
  obtain ⟨l, r, _, _, h1, h2, _, _, hstep⟩ := h (by decide)
  have hr : r = -4 := by
    have e : (2 : Int) ^ (1 : Int).toNat = 2 := by decide
    rw [e] at h1 h2
    omega
  rw [hstep, hr]
  rfl

/-! ## Calls -/

theorem drop_set_self (v : c0_value) : ∀ (A : List c0_value) (k : Nat), k < A.length →
    (A.set k v).drop k = v :: A.drop (k + 1)
  | [], _, h => absurd h (by simp)
  | _ :: _, 0, _ => by simp
  | _ :: A, k + 1, h => by
    simpa using drop_set_self v A k (by simpa using h)

/-- The argument loop pops the top `ys.length` entries and stores them, first-pushed
first, at the front of the array. -/
theorem popArgs_eq (n : Nat) : ∀ (ys : List c0_value) (i : Nat) (A rest : List c0_value),
    i + ys.length = n → ys.length ≤ A.length →
    popArgs n ys.length i A (ys ++ rest) = some (ys.reverse ++ A.drop ys.length, rest)
  | [], _, A, rest, _, _ => by simp [popArgs]
  | v :: ys, i, A, rest, hn, hA => by
    have hidx : n - i - 1 = ys.length := by simp at hn; omega
    have hlt : ys.length < A.length := by simp at hA; omega
    simp only [List.length_cons, List.cons_append, popArgs, hidx, hlt, if_true]
    rw [popArgs_eq n ys (i + 1) (A.set ys.length v) rest (by simp at hn; omega)
      (by simp; omega)]
    rw [drop_set_self v A ys.length hlt]
    simp

theorem word16_mod (c1 c2 : Nat) : word16 (c1 % 256) (c2 % 256) = word16 c1 c2 := by
  simp [word16]

/-- C6: for a function descriptor `f` with `k = num_args ≤ num_vars` parameters (`k` a byte
count) and a caller stack whose top `k` entries are `args = [v_0, ..., v_(k-1)]` with `v_0`
pushed first, one step at `INVOKESTATIC` naming `f` yields the state with the locals array
`V` of length `num_vars` holding `v_j` in slot `j < k` and the zero value in every later
slot, an empty operand stack, `pc = 0`, the code of `f`, and the old call stack with one
frame pushed that holds the caller's code, locals, operand stack without the `k` arguments,
and the position of the invoke plus 3. -/
theorem invokestatic_step (H : Host) (bc0 : bc0_file) (s : State) (f : function_info)
    (c1 c2 : Nat) (args rest : List c0_value)
    (hpc : s.P[s.pc]? = some (H.isa.code .INVOKESTATIC))
    (hc1 : s.P[s.pc + 1]? = some c1) (hc2 : s.P[s.pc + 2]? = some c2)
    (hf : bc0.function_pool[word16 c1 c2]? = some f)
    (hk : f.num_args = args.length) (hkv : f.num_args ≤ f.num_vars)
    (hbyte : f.num_args < 256)
    (hS : s.S = args.reverse ++ rest) :
    ∃ V : List c0_value,
      step H bc0 s = .next
        { S := [], P := f.code, pc := 0, V := V,
          callStack := { S := rest, P := s.P, pc := s.pc + 3, V := s.V } :: s.callStack,
          heap := s.heap } ∧
      V.length = f.num_vars ∧
      (∀ j, j < f.num_args → V[j]? = args[j]?) ∧
      (∀ j, f.num_args ≤ j → j < f.num_vars → V[j]? = some zero_value) := by
  refine ⟨args ++ zeroValues (f.num_vars - f.num_args), ?_, ?_, ?_, ?_⟩
  · rw [step_eq_exec H bc0 s .INVOKESTATIC hpc]
    have hpop := popArgs_eq f.num_args args.reverse 0 (zeroValues f.num_vars) rest
      (by simp [hk]) (by simp [zeroValues, ← hk, hkv])
    simp only [List.length_reverse, List.reverse_reverse, ← hk] at hpop
    have hdrop : (zeroValues f.num_vars).drop f.num_args
        = zeroValues (f.num_vars - f.num_args) := by
      simp [zeroValues]
    simp [exec, fetch, hc1, hc2, word16_mod, hf, Nat.not_le.mpr hbyte, hS, hpop, hdrop]
  · simp [zeroValues, ← hk]; omega
  · intro j hj
    rw [List.getElem?_append_left (by omega)]
  · intro j hj1 hj2
    rw [List.getElem?_append_right (by omega)]
    simp only [zeroValues]
    rw [List.getElem?_replicate_of_lt (by omega)]

/-- The invoke of `callModule`: the arguments 10 and 3 become locals 0 and 1. -/
theorem invokestatic_step_witness :
    step c0vmHost callModule
        (stateAt [0x10, 10, 0x10, 3, 0xB8, 0, 1, 0xB0] 4 [.int 3, .int 10, .int 77])
      = .next
        { S := [], P := [0x15, 0, 0x15, 1, 0x64, 0xB0], pc := 0,
          V := [.int 10, .int 3, .int 0],
          callStack := [{ S := [.int 77], P := [0x10, 10, 0x10, 3, 0xB8, 0, 1, 0xB0],
                          pc := 7, V := [] }],
          heap := [] } := by
  obtain ⟨V, hstep, hlen, hargs, hzero⟩ :=
    invokestatic_step c0vmHost callModule
      (stateAt [0x10, 10, 0x10, 3, 0xB8, 0, 1, 0xB0] 4 [.int 3, .int 10, .int 77])
      { num_args := 2, num_vars := 3, code := [0x15, 0, 0x15, 1, 0x64, 0xB0] }
      0 1 [.int 10, .int 3] [.int 77]
      (by decide) (by decide) (by decide) (by decide) rfl (by decide) (by decide) rfl
  have hV : V = [.int 10, .int 3, .int 0] := by
    have h0 := hargs 0 (by decide)
    have h1 := hargs 1 (by decide)
    have h2 := hzero 2 (by decide) (by decide)
    match V, hlen with
    | [a, b, c], _ =>
      simp at h0 h1 h2
      simp [h0, h1, h2, zero_value]
  rw [hstep, hV]
  rfl

theorem sext8_imm8 (a : Int) (h1 : -128 ≤ a) (h2 : a ≤ 127) : sext8 (imm8 a % 256) = a := by
  unfold sext8 imm8
  have h3 : ((a % 256).toNat : Int) = a % 256 := Int.toNat_of_nonneg (by omega)
  split <;> omega

theorem run_next (H : Host) (bc0 : bc0_file) (n : Nat) (s s' : State)
    (h : step H bc0 s = .next s') : run H bc0 (n + 1) s = run H bc0 n s' := by
  simp [run, h]

theorem run_ret (H : Host) (bc0 : bc0_file) (n : Nat) (s : State) (v : Int)
    (h : step H bc0 s = .ret v) : run H bc0 (n + 1) s = .ret v := by
  simp [run, h]

/-- After `n` successful iterations the loop goes on from the state they reach. -/
theorem run_steps (H : Host) (bc0 : bc0_file) : ∀ (n m : Nat) (s t : State),
    steps H bc0 n s = some t → run H bc0 (n + m) s = run H bc0 m t
  | 0, m, s, t, h => by
    simp only [steps, Option.some.injEq] at h
    simp [h]
  | n + 1, m, s, t, h => by
    simp only [steps] at h
    cases hs : step H bc0 s with
    | next s' =>
      rw [hs] at h
      rw [show n + 1 + m = (n + m) + 1 by omega, run_next H bc0 _ s s' hs]
      exact run_steps H bc0 n m s' t h
    | ret v => rw [hs] at h; exact absurd h (by simp)
    | fault k u => rw [hs] at h; exact absurd h (by simp)
    | assertFailed u => rw [hs] at h; exact absurd h (by simp)
    | allocFailed u => rw [hs] at h; exact absurd h (by simp)
    | undef => rw [hs] at h; exact absurd h (by simp)

/-- C8: a `RETURN` reached from the initial state after `n` iterations, with an empty call
stack and exactly the one integer `v` on the operand stack, makes `execute` return `v` (for
every fuel above `n`); for all signed 8-bit immediates `a`, `b` the entry body
`BIPUSH a; BIPUSH b; IADD; RETURN` makes `execute` return `a + b`, and for 5 and 3 it
returns 8. -/
theorem terminal_return (H : Host) :
    (∀ (bc0 : bc0_file) (s0 s : State) (n : Nat) (v : Int),
      initial bc0 = some s0 → steps H bc0 n s0 = some s →
      s.callStack = [] → s.S = [.int v] → s.P[s.pc]? = some (H.isa.code .RETURN) →
      ∀ fuel, n < fuel → execute H bc0 fuel = .ret v) ∧
    (∀ (a b : Int) (num_vars : Nat), -128 ≤ a → a ≤ 127 → -128 ≤ b → b ≤ 127 →
      ∀ fuel, 4 ≤ fuel → execute H (moduleOf (addBody H.isa a b) num_vars) fuel = .ret (a + b)) ∧
    (∀ fuel, 4 ≤ fuel → execute H (moduleOf (addBody H.isa 5 3) 0) fuel = .ret 8) := by
  have hgen : ∀ (a b : Int) (num_vars : Nat), -128 ≤ a → a ≤ 127 → -128 ≤ b → b ≤ 127 →
      ∀ fuel, 4 ≤ fuel →
        execute H (moduleOf (addBody H.isa a b) num_vars) fuel = .ret (a + b) := by
    intro a b num_vars ha1 ha2 hb1 hb2 fuel hfuel
    obtain ⟨k, rfl⟩ : ∃ k, fuel = k + 1 + 1 + 1 + 1 := ⟨fuel - 4, by omega⟩
    have hw : wrap32 (b + a) = a + b := by
      rw [wrap32_of_isInt32 (by unfold isInt32; omega)]; ring
    simp only [execute, initial, moduleOf, List.getElem?_cons_zero]
    rw [run_next H _ _ _ _ (by
      rw [step_eq_exec H _ _ .BIPUSH (by simp [addBody])]
      simp only [exec, fetch, State.incPc, State.push, addBody]
      simp only [List.getElem?_cons_succ, List.getElem?_cons_zero]
      rfl)]
    rw [run_next H _ _ _ _ (by
      rw [step_eq_exec H _ _ .BIPUSH (by simp [addBody])]
      simp only [exec, fetch, State.incPc, State.push, addBody]
      simp only [List.getElem?_cons_succ, List.getElem?_cons_zero]
      rfl)]
    rw [run_next H _ _ _ _ (by
      rw [step_eq_exec H _ _ .IADD (by simp [addBody])]
      simp only [exec, popInt, pop, State.incPc, State.push, val2int, int2val]
      rfl)]
    rw [run_ret H _ _ _ (a + b) (by
      rw [step_eq_exec H _ _ .RETURN (by simp [addBody])]
      simp [exec, popInt, pop, val2int, sext8_imm8, ha1, ha2, hb1, hb2, hw])]
  refine ⟨?_, hgen, ?_⟩
  · intro bc0 s0 s n v hinit hsteps hcs hS hpc fuel hfuel
    obtain ⟨m, rfl⟩ : ∃ m, fuel = n + (m + 1) := ⟨fuel - n - 1, by omega⟩
    simp only [execute, hinit]
    rw [run_steps H bc0 n (m + 1) s0 s hsteps]
    apply run_ret
    rw [step_eq_exec H bc0 s .RETURN hpc]
    simp [exec, hcs, popInt, pop, hS, val2int]
  · intro fuel hfuel
    have := hgen 5 3 0 (by decide) (by decide) (by decide) (by decide) fuel hfuel
    simpa using this

/-- The run of `BIPUSH 5; BIPUSH 3; IADD; RETURN` under the reference encoding. -/
theorem terminal_return_witness :
    execute c0vmHost (moduleOf [0x10, 5, 0x10, 3, 0x60, 0xB0] 0) 4 = .ret 8 :=
  (terminal_return c0vmHost).2.2 4 (Nat.le_refl 4)

/-- C7: for all signed 8-bit immediates `a` and `b`, `execute` on the module whose entry
function is `BIPUSH a; BIPUSH b; INVOKESTATIC 1; BIPUSH 1; IADD; RETURN` and whose function 1
(2 parameters, 2 locals) is `VLOAD 0; VLOAD 1; IADD; RETURN` returns `a + b + 1` after ten
iterations; with `ISUB` in function 1 it returns `a - b + 1`, so the argument pushed first
is local 0. -/
theorem scenarioC_result (H : Host) (a b : Int)
    (ha1 : -128 ≤ a) (ha2 : a ≤ 127) (hb1 : -128 ≤ b) (hb2 : b ≤ 127) :
    (∀ fuel, 10 ≤ fuel → execute H (scenarioC H.isa a b .IADD) fuel = .ret (a + b + 1)) ∧
    (∀ fuel, 10 ≤ fuel → execute H (scenarioC H.isa a b .ISUB) fuel = .ret (a - b + 1)) := by
  have hw1 : wrap32 (b + a) = a + b := by
    rw [wrap32_of_isInt32 (by unfold isInt32; omega)]; ring
  have hw2 : wrap32 (a - b) = a - b := wrap32_of_isInt32 (by unfold isInt32; omega)
  have hw3 : wrap32 (1 + (a + b)) = a + b + 1 := by
    rw [wrap32_of_isInt32 (by unfold isInt32; omega)]; ring
  have hw4 : wrap32 (1 + (a - b)) = a - b + 1 := by
    rw [wrap32_of_isInt32 (by unfold isInt32; omega)]; ring
  have h1 : sext8 1 = 1 := by decide
  have key : ∀ (op : Opcode) (r : Int), (op = .IADD ∨ op = .ISUB) →
      (∀ (t : State) (rest : List c0_value), t.S = .int b :: .int a :: rest →
        exec H (scenarioC H.isa a b op) op t
          = .next { t with S := .int r :: rest, pc := t.pc + 1 }) →
      wrap32 (1 + r) = r + 1 →
      ∀ fuel, 10 ≤ fuel → execute H (scenarioC H.isa a b op) fuel = .ret (r + 1) := by
    intro op r hop hexec hr fuel hfuel
    obtain ⟨k, rfl⟩ : ∃ k, fuel = k + 1 + 1 + 1 + 1 + 1 + 1 + 1 + 1 + 1 + 1 :=
      ⟨fuel - 10, by omega⟩
    have ea : sext8 (imm8 a % 256) = a := sext8_imm8 a ha1 ha2
    have eb : sext8 (imm8 b % 256) = b := sext8_imm8 b hb1 hb2
    have ew : word16 (0 % 256) (1 % 256) = 1 := by decide
    let fr : frame := { S := [], P := callerBody H.isa a b, pc := 7, V := [] }
    let caller (S : List c0_value) (pc : Nat) : State :=
      { S := S, P := callerBody H.isa a b, pc := pc, V := [], callStack := [], heap := [[]] }
    let callee (S : List c0_value) (pc : Nat) : State :=
      { S := S, P := calleeBody H.isa op, pc := pc, V := [.int a, .int b], callStack := [fr],
        heap := [[]] }
    have e0 : initial (scenarioC H.isa a b op) = some (caller [] 0) := by
      simp [initial, scenarioC, caller, zeroValues]
    simp only [execute, e0]
    rw [run_next H _ _ _ (caller [.int a] 2) (by
      rw [step_eq_exec H _ _ .BIPUSH (by simp [caller, callerBody])]
      simp [exec, fetch, State.incPc, State.push, caller, callerBody, int2val, ea])]
    rw [run_next H _ _ _ (caller [.int b, .int a] 4) (by
      rw [step_eq_exec H _ _ .BIPUSH (by simp [caller, callerBody])]
      simp [exec, fetch, State.incPc, State.push, caller, callerBody, int2val, eb])]
    rw [run_next H _ _ _ (callee [] 0) (by
      rw [step_eq_exec H _ _ .INVOKESTATIC (by simp [caller, callerBody])]
      simp [exec, fetch, caller, callee, fr, callerBody, scenarioC, ew, popArgs, zeroValues])]
    rw [run_next H _ _ _ (callee [.int a] 2) (by
      rw [step_eq_exec H _ _ .VLOAD (by simp [callee, calleeBody])]
      simp [exec, fetch, State.incPc, State.push, callee, calleeBody])]
    rw [run_next H _ _ _ (callee [.int b, .int a] 4) (by
      rw [step_eq_exec H _ _ .VLOAD (by simp [callee, calleeBody])]
      simp [exec, fetch, State.incPc, State.push, callee, calleeBody])]
    rw [run_next H _ _ _ (callee [.int r] 5) (by
      rw [step_eq_exec H _ _ op (by simp [callee, calleeBody])]
      rw [hexec _ [] (by simp [callee])])]
    rw [run_next H _ _ _ (caller [.int r] 7) (by
      rw [step_eq_exec H _ _ .RETURN (by simp [callee, calleeBody])]
      simp [exec, pop, callee, caller, fr])]
    rw [run_next H _ _ _ (caller [.int 1, .int r] 9) (by
      rw [step_eq_exec H _ _ .BIPUSH (by simp [caller, callerBody])]
      simp [exec, fetch, State.incPc, State.push, caller, callerBody, int2val, h1])]
    rw [run_next H _ _ _ (caller [.int (r + 1)] 10) (by
      rw [step_eq_exec H _ _ .IADD (by simp [caller, callerBody])]
      simp [exec, popInt, pop, State.incPc, State.push, val2int, int2val, caller, hr])]
    rw [run_ret H _ _ _ (r + 1) (by
      rw [step_eq_exec H _ _ .RETURN (by simp [caller, callerBody])]
      simp [exec, popInt, pop, val2int, caller])]
  constructor
  · have := key .IADD (a + b) (Or.inl rfl) (by
      intro t rest ht
      simp [exec, popInt, pop, State.incPc, State.push, ht, val2int, int2val, hw1]) hw3
    exact this
  · have := key .ISUB (a - b) (Or.inr rfl) (by
      intro t rest ht
      simp [exec, popInt, pop, State.incPc, State.push, ht, val2int, int2val, hw2]) hw4
    exact this

/-- Scenario C at 10 and 3 under the reference encoding. -/
theorem scenarioC_result_witness :
    execute c0vmHost (scenarioC c0vm 10 3 .IADD) 10 = .ret 14 ∧
    execute c0vmHost (scenarioC c0vm 10 3 .ISUB) 10 = .ret 8 :=
  ⟨(scenarioC_result c0vmHost 10 3 (by decide) (by decide) (by decide) (by decide)).1 10
      (Nat.le_refl 10),
   (scenarioC_result c0vmHost 10 3 (by decide) (by decide) (by decide) (by decide)).2 10
      (Nat.le_refl 10)⟩

/-! ## The call stack discipline -/

/-- Every case of the loop other than `RETURN` and `INVOKESTATIC` leaves the call stack
alone. -/
theorem exec_callStack (H : Host) (bc0 : bc0_file) (op : Opcode) (u u' : State)
    (hop1 : op ≠ .RETURN) (hop2 : op ≠ .INVOKESTATIC)
    (h : exec H bc0 op u = .next u') : u'.callStack = u.callStack := by
  cases op <;>
    first
    | exact absurd rfl hop1
    | exact absurd rfl hop2
    | (simp only [exec, pop, popInt, popPtr, fetch, branch, jump, State.push, State.incPc] at h
       repeat' split at h
       all_goals first
         | (simp only [Outcome.next.injEq] at h; subst h; rfl)
         | (simp at h))

/-- The argument loop pops exactly `fuel` entries. -/
theorem popArgs_stack (n : Nat) : ∀ (fuel i : Nat) (A S V S' : List c0_value),
    popArgs n fuel i A S = some (V, S') → fuel ≤ S.length ∧ S' = S.drop fuel
  | 0, _, _, _, _, _, h => by
    simp only [popArgs, Option.some.injEq, Prod.mk.injEq] at h
    simp [h.2]
  | fuel + 1, i, A, [], V, S', h => by simp [popArgs] at h
  | fuel + 1, i, A, v :: S, V, S', h => by
    simp only [popArgs] at h
    split at h
    · have := popArgs_stack n fuel (i + 1) _ S V S' h
      simp [this.1, this.2]
    · simp at h

/-- The state a successful `INVOKESTATIC` step leads to. -/
theorem invokestatic_shape (H : Host) (bc0 : bc0_file) (s s1 : State) (f : function_info)
    (c1 c2 : Nat)
    (hpc : s.P[s.pc]? = some (H.isa.code .INVOKESTATIC))
    (hc1 : s.P[s.pc + 1]? = some c1) (hc2 : s.P[s.pc + 2]? = some c2)
    (hf : bc0.function_pool[word16 c1 c2]? = some f)
    (h : step H bc0 s = .next s1) :
    f.num_args ≤ s.S.length ∧
    s1.callStack
      = { S := s.S.drop f.num_args, P := s.P, pc := s.pc + 3, V := s.V } :: s.callStack := by
  rw [step_eq_exec H bc0 s .INVOKESTATIC hpc] at h
  simp only [exec, fetch, hc1, hc2, word16_mod, hf] at h
  split at h
  · simp at h
  · split at h
    · simp at h
    · rename_i V S hpop
      have := popArgs_stack _ _ _ _ _ _ _ hpop
      simp only [Outcome.next.injEq] at h
      subst h
      simp [this.1, this.2]

/-- How one iteration of the loop changes the call stack: not at all, by pushing one frame,
or (`RETURN`) by popping the top frame and resuming it with the returned value pushed. -/
theorem step_callStack (H : Host) (bc0 : bc0_file) (u u' : State)
    (h : step H bc0 u = .next u') :
    u'.callStack = u.callStack ∨ (∃ g, u'.callStack = g :: u.callStack) ∨
    (∃ g cs v S', u.callStack = g :: cs ∧ u.S = v :: S' ∧
      u' = { S := v :: g.S, P := g.P, pc := g.pc, V := g.V, callStack := cs,
             heap := u.heap }) := by
  unfold step fetch at h
  split at h
  · simp at h
  · simp only at h
    split at h
    · simp at h
    · rename_i op hdec
      by_cases hop1 : op = .RETURN
      · subst hop1
        right; right
        simp only [exec, popInt, pop] at h
        split at h
        · repeat' split at h
          all_goals simp at h
        · rename_i g cs hcs
          split at h
          · simp at h
          · rename_i v S' hS
            simp only [Outcome.next.injEq] at h
            exact ⟨g, cs, v, S', hcs, hS, h.symm⟩
      · by_cases hop2 : op = .INVOKESTATIC
        · subst hop2
          right; left
          simp only [exec, fetch] at h
          repeat' split at h
          all_goals first
            | (simp only [Outcome.next.injEq] at h; subst h; exact ⟨_, rfl⟩)
            | (simp at h)
        · left
          exact exec_callStack H bc0 op u u' hop1 hop2 h

/-- While a callee runs above depth `d`, the `d + 1` frames at the bottom of the call stack
stay as they are. -/
theorem stepsAbove_base (H : Host) (bc0 : bc0_file) (base : List frame) :
    ∀ (n : Nat) (u t : State), (∃ pre, u.callStack = pre ++ base) →
      stepsAbove H bc0 (base.length - 1) n u = some t → ∃ pre, t.callStack = pre ++ base
  | 0, u, t, hu, h => by
    simp only [stepsAbove] at h
    split at h
    · simp only [Option.some.injEq] at h
      subst h; exact hu
    · simp at h
  | n + 1, u, t, hu, h => by
    simp only [stepsAbove] at h
    split at h
    · cases hs : step H bc0 u with
      | next u' =>
        rw [hs] at h
        refine stepsAbove_base H bc0 base n u' t ?_ h
        have hdeep : base.length - 1 < u'.callStack.length := by
          cases n with
          | zero =>
            simp only [stepsAbove] at h
            split at h
            · assumption
            · simp at h
          | succ m =>
            simp only [stepsAbove] at h
            split at h
            · assumption
            · simp at h
        obtain ⟨pre, hpre⟩ := hu
        rcases step_callStack H bc0 u u' hs with h1 | ⟨g, h2⟩ | ⟨g, cs, v, S', h3, _, h4⟩
        · exact ⟨pre, by rw [h1, hpre]⟩
        · exact ⟨g :: pre, by rw [h2, hpre]; rfl⟩
        · subst h4
          cases pre with
          | nil =>
            simp only [List.nil_append] at hpre
            rw [hpre] at h3
            have : base.length = cs.length + 1 := by rw [h3]; rfl
            simp only at hdeep
            omega
          | cons p pre' =>
            rw [hpre] at h3
            simp only [List.cons_append, List.cons.injEq] at h3
            exact ⟨pre', h3.2.symm⟩
      | ret v => rw [hs] at h; simp at h
      | fault k w => rw [hs] at h; simp at h
      | assertFailed w => rw [hs] at h; simp at h
      | allocFailed w => rw [hs] at h; simp at h
      | undef => rw [hs] at h; simp at h
    · simp at h

/-- The return that matches an invoke: when the callee entered by the `INVOKESTATIC` at
`s0` has run above the caller's depth up to `t`, and the step at `t` brings the call stack
back to that depth, this step resumes the frame the invoke pushed, with the value on top of
the callee's stack pushed on the caller's stack without the arguments. -/
theorem matching_return (H : Host) (bc0 : bc0_file) (s0 s1 t s' : State)
    (f : function_info) (c1 c2 n : Nat)
    (hpc : s0.P[s0.pc]? = some (H.isa.code .INVOKESTATIC))
    (hc1 : s0.P[s0.pc + 1]? = some c1) (hc2 : s0.P[s0.pc + 2]? = some c2)
    (hf : bc0.function_pool[word16 c1 c2]? = some f)
    (hinv : step H bc0 s0 = .next s1)
    (hrun : stepsAbove H bc0 s0.callStack.length n s1 = some t)
    (hret : step H bc0 t = .next s')
    (hdepth : s'.callStack.length ≤ s0.callStack.length) :
    f.num_args ≤ s0.S.length ∧
    ∃ v S', t.S = v :: S' ∧
      s' = { S := v :: s0.S.drop f.num_args, P := s0.P, pc := s0.pc + 3, V := s0.V,
             callStack := s0.callStack, heap := t.heap } := by
  obtain ⟨hk, hcs⟩ := invokestatic_shape H bc0 s0 s1 f c1 c2 hpc hc1 hc2 hf hinv
  refine ⟨hk, ?_⟩
  have hbase := stepsAbove_base H bc0
    ({ S := s0.S.drop f.num_args, P := s0.P, pc := s0.pc + 3, V := s0.V } :: s0.callStack)
    n s1 t ⟨[], by simp [hcs]⟩ (by simpa using hrun)
  obtain ⟨pre, hpre⟩ := hbase
  rcases step_callStack H bc0 t s' hret with h1 | ⟨g, h2⟩ | ⟨g, cs, v, S', h3, hS, h4⟩
  · rw [h1, hpre] at hdepth
    simp at hdepth
    omega
  · rw [h2, hpre] at hdepth
    simp at hdepth
    omega
  · subst h4
    cases pre with
    | nil =>
      simp only [List.nil_append] at hpre
      rw [hpre] at h3
      simp only [List.cons.injEq] at h3
      obtain ⟨hg, hcs'⟩ := h3
      subst hg
      subst hcs'
      exact ⟨v, S', hS, rfl⟩
    | cons p pre' =>
      rw [hpre] at h3
      simp only [List.cons_append, List.cons.injEq] at h3
      have : cs.length = pre'.length + (s0.callStack.length + 1) := by
        rw [← h3.2]; simp
      simp only at hdepth
      omega

/-- C4: call/return stack law.  Let `s0` be a state whose instruction at `pc` is
`INVOKESTATIC` of a function `f` with `k = num_args` parameters, and let the step at `s0`
succeed.  If the callee then runs for `n` iterations above the caller's call-stack depth
(whatever it does, nested and recursive calls included) to a state `t`, and the step at `t`
is the return that brings the call stack back to the caller's depth, then the caller's
stack had depth `d ≥ k`, and the operand stack after the return is the stack of `s0` without
its top `k` entries, with the value on top of the callee's stack pushed: its depth is
`d - k + 1`. -/
theorem call_return_stack (H : Host) (bc0 : bc0_file) (s0 s1 t s' : State)
    (f : function_info) (c1 c2 n : Nat)
    (hpc : s0.P[s0.pc]? = some (H.isa.code .INVOKESTATIC))
    (hc1 : s0.P[s0.pc + 1]? = some c1) (hc2 : s0.P[s0.pc + 2]? = some c2)
    (hf : bc0.function_pool[word16 c1 c2]? = some f)
    (hinv : step H bc0 s0 = .next s1)
    (hrun : stepsAbove H bc0 s0.callStack.length n s1 = some t)
    (hret : step H bc0 t = .next s')
    (hdepth : s'.callStack.length ≤ s0.callStack.length) :
    f.num_args ≤ s0.S.length ∧
    ∃ v S', t.S = v :: S' ∧ s'.S = v :: s0.S.drop f.num_args ∧
      s'.S.length = s0.S.length - f.num_args + 1 := by
  obtain ⟨hk, v, S', hS, hs'⟩ :=
    matching_return H bc0 s0 s1 t s' f c1 c2 n hpc hc1 hc2 hf hinv hrun hret hdepth
  refine ⟨hk, v, S', hS, ?_, ?_⟩
  · rw [hs']
  · rw [hs']; simp

/-- The stack law on the call of `callModule`. -/
theorem call_return_stack_witness :
    2 ≤ atInvoke.S.length ∧
    ∃ v S', (inCallee 5 [.int 7]).S = v :: S' ∧ afterReturn.S = v :: atInvoke.S.drop 2 ∧
      afterReturn.S.length = atInvoke.S.length - 2 + 1 :=
  call_return_stack c0vmHost callModule atInvoke (inCallee 0 []) (inCallee 5 [.int 7])
    afterReturn { num_args := 2, num_vars := 3, code := [0x15, 0, 0x15, 1, 0x64, 0xB0] } 0 1 3
    (by decide) (by decide) (by decide) (by decide) (by decide) (by decide) (by decide)
    (by decide)

/-- C5: frame restoration.  With `s0`, `f`, the callee run to `t` and the matching return
to `s'` as in the call/return stack law: after the return the current code is that of `s0`,
the program counter is the position of the invoke plus 3, the locals array is that of `s0`
and the call stack is again that of `s0`; and in every state of the callee's run, nested
calls included, the frame holding the caller's code, program counter, locals and stack sits
unchanged on the call stack right above the caller's call stack. -/
theorem frame_restoration (H : Host) (bc0 : bc0_file) (s0 s1 t s' : State)
    (f : function_info) (c1 c2 n : Nat)
    (hpc : s0.P[s0.pc]? = some (H.isa.code .INVOKESTATIC))
    (hc1 : s0.P[s0.pc + 1]? = some c1) (hc2 : s0.P[s0.pc + 2]? = some c2)
    (hf : bc0.function_pool[word16 c1 c2]? = some f)
    (hinv : step H bc0 s0 = .next s1)
    (hrun : stepsAbove H bc0 s0.callStack.length n s1 = some t)
    (hret : step H bc0 t = .next s')
    (hdepth : s'.callStack.length ≤ s0.callStack.length) :
    s'.P = s0.P ∧ s'.pc = s0.pc + 3 ∧ s'.V = s0.V ∧ s'.callStack = s0.callStack ∧
    ∀ (m : Nat) (u : State), stepsAbove H bc0 s0.callStack.length m s1 = some u →
      ∃ pre, u.callStack
        = pre ++ { S := s0.S.drop f.num_args, P := s0.P, pc := s0.pc + 3, V := s0.V }
            :: s0.callStack := by
  obtain ⟨_, v, S', _, hs'⟩ :=
    matching_return H bc0 s0 s1 t s' f c1 c2 n hpc hc1 hc2 hf hinv hrun hret hdepth
  obtain ⟨_, hcs⟩ := invokestatic_shape H bc0 s0 s1 f c1 c2 hpc hc1 hc2 hf hinv
  refine ⟨by rw [hs'], by rw [hs'], by rw [hs'], by rw [hs'], ?_⟩
  intro m u hu
  exact stepsAbove_base H bc0
    ({ S := s0.S.drop f.num_args, P := s0.P, pc := s0.pc + 3, V := s0.V } :: s0.callStack)
    m s1 u ⟨[], by simp [hcs]⟩ (by simpa using hu)

/-- Frame restoration on the call of `callModule`. -/
theorem frame_restoration_witness :
    afterReturn.P = atInvoke.P ∧ afterReturn.pc = atInvoke.pc + 3 ∧
    afterReturn.V = atInvoke.V ∧ afterReturn.callStack = atInvoke.callStack :=
  have h := frame_restoration c0vmHost callModule atInvoke (inCallee 0 []) (inCallee 5 [.int 7])
    afterReturn { num_args := 2, num_vars := 3, code := [0x15, 0, 0x15, 1, 0x64, 0xB0] } 0 1 3
    (by decide) (by decide) (by decide) (by decide) (by decide) (by decide) (by decide)
    (by decide)
  ⟨h.1, h.2.1, h.2.2.1, h.2.2.2.1⟩

/-! ## Arrays -/

theorem arrayHeader_length (n sz : Int) (p : Ptr) :
    (arrayHeader n sz p).length = sizeof_c0_array := by
  cases p <;> rfl

theorem decodeU32_encode32 (x : Int) :
    decodeU32 (encode32 x) = some (x % 4294967296).toNat := by
  simp only [encode32, decodeU32, Option.some.injEq]
  have : (x % 4294967296).toNat < 4294967296 := by omega
  omega

theorem decodePtr_encodePtr (p : Ptr) : decodePtr (encodePtr p) = some p := by
  cases p <;> simp [decodePtr, encodePtr]

theorem heap_new_block (h : Heap) (hd st : List Cell) :
    (h ++ [hd, st])[h.length]? = some hd := by
  rw [List.getElem?_append_right (Nat.le_refl _)]
  simp

/-- The `count` field of an array header reads back as stored. -/
theorem load_count (h : Heap) (blk : Nat) (n sz : Int) (p : Ptr)
    (hblk : h[blk]? = some (arrayHeader n sz p)) :
    Heap.loadU32 h blk 0 = some (n % 4294967296).toNat := by
  simp only [Heap.loadU32, Heap.read, hblk]
  have hlen : 0 + 4 ≤ (arrayHeader n sz p).length := by
    cases p <;> simp [arrayHeader, encode32, encodePtr]
  rw [if_pos hlen]
  have : ((arrayHeader n sz p).drop 0).take 4 = encode32 n := by
    simp [arrayHeader, encode32]
  simp only [this, decodeU32_encode32]

/-- The `elt_size` field of an array header reads back as stored. -/
theorem load_elt_size (h : Heap) (blk : Nat) (n sz : Int) (p : Ptr)
    (hblk : h[blk]? = some (arrayHeader n sz p)) :
    Heap.loadU32 h blk 4 = some (sz % 4294967296).toNat := by
  simp only [Heap.loadU32, Heap.read, hblk]
  have hlen : 4 + 4 ≤ (arrayHeader n sz p).length := by
    cases p <;> simp [arrayHeader, encode32, encodePtr]
  rw [if_pos hlen]
  have : ((arrayHeader n sz p).drop 4).take 4 = encode32 sz := by
    simp [arrayHeader, encode32]
  simp only [this, decodeU32_encode32]

/-- The `elems` field of an array header reads back as stored. -/
theorem load_elems (h : Heap) (blk : Nat) (n sz : Int) (p : Ptr)
    (hblk : h[blk]? = some (arrayHeader n sz p)) :
    Heap.loadPtr h blk 8 = some p := by
  simp only [Heap.loadPtr, Heap.read, hblk]
  have hlen : 8 + 8 ≤ (arrayHeader n sz p).length := by
    cases p <;> simp [arrayHeader, encode32, encodePtr]
  rw [if_pos hlen]
  have : ((arrayHeader n sz p).drop 8).take 8 = encodePtr p := by
    cases p <;> simp [arrayHeader, encode32, encodePtr]
  simp only [this, decodePtr_encodePtr]

theorem wrap32_toNat {n : Int} (h0 : 0 ≤ n) (h : isInt32 n) :
    wrap32 (((n % 4294967296).toNat : Nat) : Int) = n := by
  unfold isInt32 at h
  have : (((n % 4294967296).toNat : Nat) : Int) = n := by omega
  rw [this]
  unfold wrap32; omega

/-- What `NEWARRAY sz` does with the count `n` on top of the stack: the memory error for a
negative `n`, the end of the process when the `int` product `sz * n`, taken as a size, is a
request no allocation can satisfy, and a new array otherwise. -/
theorem newarray_outcome (H : Host) (bc0 : bc0_file) (s : State) (sz : Nat) (n : Int)
    (rest : List c0_value) (hsz : sz < 256)
    (hpc : s.P[s.pc]? = some (H.isa.code .NEWARRAY))
    (hop : s.P[s.pc + 1]? = some sz)
    (hS : s.S = .int n :: rest) :
    step H bc0 s =
      if n < 0 then .fault (.memory "Invalid Element!") { s with S := rest, pc := s.pc + 2 }
      else if allocLimit ≤ toSizeT (wrap32 ((sz : Int) * n)) then
        .allocFailed { s with S := rest, pc := s.pc + 2 }
      else .next (afterNewarray s sz n rest) := by
  rw [step_eq_exec H bc0 s .NEWARRAY hpc]
  simp only [exec, fetch, popInt, pop, State.incPc, State.push, hop, hS, val2int, ptr2val,
    Nat.mod_eq_of_lt hsz, afterNewarray]

/-- What `NEWARRAY sz` does with a non-negative count `n` on top of the stack when the
storage can be allocated. -/
theorem newarray_step (H : Host) (bc0 : bc0_file) (s : State) (sz : Nat) (n : Int)
    (rest : List c0_value) (hn : 0 ≤ n) (hsz : sz < 256)
    (halloc : toSizeT (wrap32 ((sz : Int) * n)) < allocLimit)
    (hpc : s.P[s.pc]? = some (H.isa.code .NEWARRAY))
    (hop : s.P[s.pc + 1]? = some sz)
    (hS : s.S = .int n :: rest) :
    step H bc0 s = .next (afterNewarray s sz n rest) := by
  rw [newarray_outcome H bc0 s sz n rest hsz hpc hop hS, if_neg (Int.not_lt.mpr hn),
    if_neg (Nat.not_le.mpr halloc)]

/-- A `NEWARRAY` step that succeeds had a non-negative count and leads to the state with
the new array. -/
theorem newarray_created (H : Host) (bc0 : bc0_file) (s s1 : State) (sz : Nat) (n : Int)
    (rest : List c0_value) (hsz : sz < 256)
    (hpc : s.P[s.pc]? = some (H.isa.code .NEWARRAY))
    (hop : s.P[s.pc + 1]? = some sz)
    (hS : s.S = .int n :: rest)
    (hstep : step H bc0 s = .next s1) :
    0 ≤ n ∧ s1 = afterNewarray s sz n rest := by
  rw [newarray_outcome H bc0 s sz n rest hsz hpc hop hS] at hstep
  split at hstep
  · simp at hstep
  · rename_i hn
    split at hstep
    · simp at hstep
    · simp only [Outcome.next.injEq] at hstep
      exact ⟨Int.not_lt.mp hn, hstep.symm⟩

/-- The array length round trip when the storage can be allocated: for an element size
`sz` in 0..255 and a 32-bit integer `n ≥ 0` on top of the operand stack, `NEWARRAY sz`
pushes a reference to a new array and `ARRAYLENGTH` replaces it by exactly `n`. -/
theorem newarray_length_roundtrip (H : Host) (bc0 : bc0_file) (s : State) (sz : Nat)
    (n : Int) (rest : List c0_value)
    (hn : 0 ≤ n) (hn32 : isInt32 n) (hsz : sz < 256)
    (halloc : toSizeT (wrap32 ((sz : Int) * n)) < allocLimit)
    (hpc : s.P[s.pc]? = some (H.isa.code .NEWARRAY))
    (hop : s.P[s.pc + 1]? = some sz)
    (hpc2 : s.P[s.pc + 2]? = some (H.isa.code .ARRAYLENGTH))
    (hS : s.S = .int n :: rest) :
    ∃ s1 s2 : State, step H bc0 s = .next s1 ∧ step H bc0 s1 = .next s2 ∧
      s1.S = .ptr (.addr s.heap.length 0) :: rest ∧
      s2.S = .int n :: rest ∧ s2.pc = s.pc + 3 ∧ s2.heap = s1.heap := by
  refine ⟨afterNewarray s sz n rest, { afterNewarray s sz n rest with
      S := .int n :: rest, pc := s.pc + 3 },
    newarray_step H bc0 s sz n rest hn hsz halloc hpc hop hS, ?_, rfl, rfl, rfl, rfl⟩
  rw [step_eq_exec H bc0 _ .ARRAYLENGTH (by simpa [afterNewarray] using hpc2)]
  have hcount := load_count _ s.heap.length n sz (.addr (s.heap.length + 1) 0)
    (heap_new_block s.heap _ (List.replicate (toSizeT (wrap32 ((sz : Int) * n))) (Cell.byte 0)))
  have hload : Heap.load32 (s.heap ++ [arrayHeader n sz (.addr (s.heap.length + 1) 0),
      List.replicate (toSizeT (wrap32 ((sz : Int) * n))) (Cell.byte 0)]) s.heap.length 0
      = some n := by
    simp only [Heap.load32, hcount, wrap32_toNat hn hn32]
  simp [exec, popPtr, pop, State.incPc, State.push, val2ptr, int2val, afterNewarray,
    hload, Int.not_lt.mpr hn]

/-- The length round trip for an empty array of 4-byte elements. -/
theorem newarray_length_roundtrip_empty :
    ∃ s1 s2 : State,
      step c0vmHost (moduleOf [0xBC, 4, 0xBE] 0) (stateAt [0xBC, 4, 0xBE] 0 [.int 0]) = .next s1 ∧
      step c0vmHost (moduleOf [0xBC, 4, 0xBE] 0) s1 = .next s2 ∧
      s1.S = .ptr (.addr 0 0) :: [] ∧ s2.S = .int 0 :: [] ∧ s2.pc = 0 + 3 ∧ s2.heap = s1.heap :=
  newarray_length_roundtrip c0vmHost (moduleOf [0xBC, 4, 0xBE] 0)
    (stateAt [0xBC, 4, 0xBE] 0 [.int 0])
    4 0 [] (by decide) (by decide) (by decide) (by decide) (by decide) (by decide) (by decide) rfl

/-- C9, at the failing input: on `hugeArrayModule` the loop reaches `NEWARRAY 4` with the
count `n = 2^29`, a 32-bit integer that is not negative, on top of the stack; the `int`
product `4 * n` wraps to `-2^31`, which as a size is a request for `2^64 - 2^31` bytes, so
the allocation cannot be satisfied and the process ends in `NEWARRAY`: no reference is
pushed and the `ARRAYLENGTH` that follows is never reached. -/
theorem newarray_alloc_fails :
    ((initial hugeArrayModule).bind (steps c0vmHost hugeArrayModule 1)).map (fun s => s.S)
      = some [.int 536870912] ∧
    wrap32 (4 * 536870912) = -2147483648 ∧
    toSizeT (wrap32 (4 * 536870912)) = 18446744071562067968 ∧
    (∀ fuel, 2 ≤ fuel →
      execute c0vmHost hugeArrayModule fuel = .allocFailed (hugeArrayState 5 [])) := by
  refine ⟨by decide, by decide, by decide, ?_⟩
  intro fuel hfuel
  obtain ⟨k, rfl⟩ : ∃ k, fuel = k + 1 + 1 := ⟨fuel - 2, by omega⟩
  have hi : initial hugeArrayModule = some (hugeArrayState 0 []) := by decide
  have h1 : step c0vmHost hugeArrayModule (hugeArrayState 0 [])
      = .next (hugeArrayState 3 [.int 536870912]) := by decide
  have h2 : step c0vmHost hugeArrayModule (hugeArrayState 3 [.int 536870912])
      = .allocFailed (hugeArrayState 5 []) := by decide
  simp [execute, hi, run, h1, h2]

/-- What `AADDS` does on a reference to an array header holding the count `n`, the element
size `sz` and the element storage `eblk + eoff`, with the index `i` on top of the stack: it
raises the memory error exactly when `i < 0` or `n ≤ i`, and otherwise pushes the storage
address advanced by the product `sz * i` taken as a 32-bit unsigned integer. -/
theorem aadds_step (H : Host) (bc0 : bc0_file) (s : State) (blk eblk eoff sz : Nat)
    (n i : Int) (rest : List c0_value)
    (hblk : s.heap[blk]? = some (arrayHeader n sz (.addr eblk eoff)))
    (hn : 0 ≤ n) (hn32 : isInt32 n) (hsz : sz < 256)
    (hpc : s.P[s.pc]? = some (H.isa.code .AADDS))
    (hS : s.S = .int i :: .ptr (.addr blk 0) :: rest) :
    ((∃ msg t, step H bc0 s = .fault (.memory msg) t) ↔ (i < 0 ∨ n ≤ i)) ∧
    (¬ (i < 0 ∨ n ≤ i) →
      step H bc0 s = .next { s with
        S := .ptr (.addr eblk (eoff + (sz * i.toNat) % 4294967296)) :: rest
        pc := s.pc + 1 }) := by
  rw [step_eq_exec H bc0 s .AADDS hpc]
  have hcount : Heap.load32 s.heap blk 0 = some n := by
    simp only [Heap.load32, load_count s.heap blk n sz _ hblk, wrap32_toNat hn hn32]
  have hsize : Heap.loadU32 s.heap blk (0 + 4) = some sz := by
    rw [Nat.zero_add, load_elt_size s.heap blk n sz _ hblk]
    congr 1
    omega
  have helems : Heap.loadPtr s.heap blk (0 + 8) = some (.addr eblk eoff) := by
    rw [Nat.zero_add, load_elems s.heap blk n sz _ hblk]
  by_cases hi : i < 0
  · refine ⟨⟨fun _ => Or.inl hi, fun _ => ?_⟩, fun h => absurd (Or.inl hi) h⟩
    simp [exec, popInt, popPtr, pop, State.incPc, hS, val2int, val2ptr, hi]
  · by_cases hle : n ≤ i
    · refine ⟨⟨fun _ => Or.inr hle, fun _ => ?_⟩, fun h => absurd (Or.inr hle) h⟩
      simp [exec, popInt, popPtr, pop, State.incPc, hS, val2int, val2ptr, hi, hcount, hle]
    · have hno : ¬ (i < 0 ∨ n ≤ i) := fun h => h.elim hi hle
      refine ⟨⟨fun h => ?_, fun h => absurd h hno⟩, fun _ => ?_⟩
      · obtain ⟨msg, t, ht⟩ := h
        simp [exec, popInt, popPtr, pop, State.incPc, State.push, hS, val2int, val2ptr,
          ptr2val, hi, hcount, hle, hsize, helems] at ht
      · simp [exec, popInt, popPtr, pop, State.incPc, State.push, hS, val2int, val2ptr,
          ptr2val, hi, hcount, hle, hsize, helems]

/-- C10, at the failing input: on `bigArrayModule` the loop reaches `AADDS` with the index
`2^30` and the reference to the array (heap block 1) that `NEWARRAY 4` made for the count
`2^30 + 1`; the index is within bounds and the step succeeds, and it pushes the address at
byte offset 0 of the element storage (heap block 2), although `2^30 * 4` is `4294967296`. -/
theorem aadds_offset_wraps :
    ((initial bigArrayModule).bind (steps c0vmHost bigArrayModule 3)).map (fun s => s.S)
      = some [.int 1073741824, .ptr (.addr 1 0)] ∧
    ((initial bigArrayModule).bind (steps c0vmHost bigArrayModule 3)).bind
        (fun s => s.heap[1]?)
      = some (arrayHeader 1073741825 4 (.addr 2 0)) ∧
    ((initial bigArrayModule).bind (steps c0vmHost bigArrayModule 4)).map (fun s => s.S)
      = some [.ptr (.addr 2 0)] ∧
    (1073741824 : Int) * 4 = 4294967296 := by
  decide

/-! ## Memory access -/

/-- C11: null safety.  For each of `IMLOAD`, `AMLOAD`, `CMLOAD`, `AADDF`, `ARRAYLENGTH` with
the null reference on top of the stack, each of `IMSTORE`, `CMSTORE`, `AADDS` with an integer
on top and the null reference below it, and `AMSTORE` with a reference on top and the null
reference below it, the step raises the memory error, and the heap in the state of the
error is the heap before the step. -/
theorem null_safety (H : Host) (bc0 : bc0_file) (s : State) (op : Opcode)
    (rest : List c0_value) (x : Int) (b : Ptr)
    (hpc : s.P[s.pc]? = some (H.isa.code op))
    (hS : (op ∈ [Opcode.IMLOAD, .AMLOAD, .CMLOAD, .AADDF, .ARRAYLENGTH] ∧
            s.S = .ptr .null :: rest) ∨
          (op ∈ [Opcode.IMSTORE, .CMSTORE, .AADDS] ∧ s.S = .int x :: .ptr .null :: rest) ∨
          (op = .AMSTORE ∧ s.S = .ptr b :: .ptr .null :: rest)) :
    ∃ msg t, step H bc0 s = .fault (.memory msg) t ∧ t.heap = s.heap ∧ t.S = rest := by
  rw [step_eq_exec H bc0 s op hpc]
  rcases hS with ⟨hop, hS⟩ | ⟨hop, hS⟩ | ⟨hop, hS⟩
  · simp only [List.mem_cons, List.mem_singleton, List.mem_nil_iff, or_false] at hop
    rcases hop with rfl | rfl | rfl | rfl | rfl <;>
      (simp only [exec, popPtr, pop, State.incPc, hS, val2ptr]
       exact ⟨_, _, rfl, rfl, rfl⟩)
  · simp only [List.mem_cons, List.mem_singleton, List.mem_nil_iff, or_false] at hop
    rcases hop with rfl | rfl | rfl <;>
      (simp only [exec, popInt, popPtr, pop, State.incPc, hS, val2int, val2ptr]
       exact ⟨_, _, rfl, rfl, rfl⟩)
  · subst hop
    simp only [exec, popPtr, pop, State.incPc, hS, val2ptr]
    exact ⟨_, _, rfl, rfl, rfl⟩

/-- A character load through the null reference raises "Invalid Access!" and leaves the
heap as it was. -/
theorem null_safety_witness :
    ∃ msg t, step c0vmHost (moduleOf [0x34] 0) (loadState [.ptr .null]) = .fault (.memory msg) t ∧
      t.heap = (loadState [.ptr .null]).heap ∧ t.S = [] :=
  null_safety c0vmHost (moduleOf [0x34] 0) (loadState [.ptr .null]) .CMLOAD [] 0 .null
    (by decide) (Or.inl ⟨by decide, rfl⟩)

/-! ## Branches -/

theorem sext16_range (w : Nat) : -32768 ≤ sext16 w ∧ sext16 w ≤ 32767 := by
  unfold sext16; split <;> omega

theorem jump_eq (s : State) (b1 b2 : Nat)
    (hb1 : s.P[s.pc + 1]? = some b1) (hb2 : s.P[s.pc + 2]? = some b2) :
    jump s = .next { s with pc := pcAdd s.pc (sext16 (word16 b1 b2)) } := by
  simp [jump, fetch, hb1, hb2, word16_mod]

/-- What a taken branch does: the values it compares are popped and `pc` becomes
`pc + off` computed in `size_t`. -/
theorem branch_taken_step (H : Host) (bc0 : bc0_file) (s : State) (op : Opcode)
    (rest : List c0_value) (b1 b2 : Nat)
    (hpc : s.P[s.pc]? = some (H.isa.code op))
    (hb1 : s.P[s.pc + 1]? = some b1) (hb2 : s.P[s.pc + 2]? = some b2)
    (htaken : branchTaken op s.S = some rest) :
    step H bc0 s
      = .next { s with S := rest, pc := pcAdd s.pc (sext16 (word16 b1 b2)) } := by
  rw [step_eq_exec H bc0 s op hpc]
  have hj : ∀ t : State, t.P = s.P → t.pc = s.pc →
      jump t = .next { t with pc := pcAdd s.pc (sext16 (word16 b1 b2)) } := by
    intro t hP hpc'
    have := jump_eq t b1 b2 (by rw [hP, hpc']; exact hb1) (by rw [hP, hpc']; exact hb2)
    rw [this, hpc']
  cases op
  case GOTO =>
    simp only [branchTaken, Option.some.injEq] at htaken
    subst htaken
    simp only [exec]
    exact hj s rfl rfl
  case IF_CMPEQ =>
    rcases hS : s.S with _ | ⟨v1, _ | ⟨v2, rest'⟩⟩ <;> rw [hS] at htaken <;>
      simp [branchTaken] at htaken
    obtain ⟨hc, rfl⟩ := htaken
    simp only [exec, pop, hS, branch, hc, if_true]
    exact hj _ rfl rfl
  case IF_CMPNE =>
    rcases hS : s.S with _ | ⟨v1, _ | ⟨v2, rest'⟩⟩ <;> rw [hS] at htaken <;>
      simp [branchTaken] at htaken
    obtain ⟨hc, rfl⟩ := htaken
    simp only [exec, pop, hS, branch, hc, Bool.not_false, if_true]
    exact hj _ rfl rfl
  case IF_ICMPLT =>
    rcases hS : s.S with _ | ⟨v1, _ | ⟨v2, rest'⟩⟩ <;> rw [hS] at htaken <;>
      try (simp [branchTaken] at htaken; done)
    cases v1 <;> cases v2 <;> simp [branchTaken] at htaken
    obtain ⟨hc, rfl⟩ := htaken
    simp only [exec, pop, popInt, val2int, hS, branch, hc, decide_True, if_true]
    exact hj _ rfl rfl
  case IF_ICMPGE =>
    rcases hS : s.S with _ | ⟨v1, _ | ⟨v2, rest'⟩⟩ <;> rw [hS] at htaken <;>
      try (simp [branchTaken] at htaken; done)
    cases v1 <;> cases v2 <;> simp [branchTaken] at htaken
    obtain ⟨hc, rfl⟩ := htaken
    simp only [exec, pop, popInt, val2int, hS, branch, ge_iff_le, hc, decide_True, if_true]
    exact hj _ rfl rfl
  case IF_ICMPGT =>
    rcases hS : s.S with _ | ⟨v1, _ | ⟨v2, rest'⟩⟩ <;> rw [hS] at htaken <;>
      try (simp [branchTaken] at htaken; done)
    cases v1 <;> cases v2 <;> simp [branchTaken] at htaken
    obtain ⟨hc, rfl⟩ := htaken
    simp only [exec, pop, popInt, val2int, hS, branch, gt_iff_lt, hc, decide_True, if_true]
    exact hj _ rfl rfl
  case IF_ICMPLE =>
    rcases hS : s.S with _ | ⟨v1, _ | ⟨v2, rest'⟩⟩ <;> rw [hS] at htaken <;>
      try (simp [branchTaken] at htaken; done)
    cases v1 <;> cases v2 <;> simp [branchTaken] at htaken
    obtain ⟨hc, rfl⟩ := htaken
    simp only [exec, pop, popInt, val2int, hS, branch, hc, decide_True, if_true]
    exact hj _ rfl rfl
  all_goals simp [branchTaken] at htaken

/-- C12, as stated, fails at `p = 0`: a `GOTO` at position 0 with the operand bytes
`0xFF 0xFD` (offset -3) sets `pc` to `2^64 - 3`, which is not `0 + (-3)`. -/
theorem goto_before_start :
    step c0vmHost (moduleOf [0xA7, 0xFF, 0xFD] 0) (stateAt [0xA7, 0xFF, 0xFD] 0 [])
      = .next (stateAt [0xA7, 0xFF, 0xFD] 18446744073709551613 []) ∧
    sext16 (word16 0xFF 0xFD) = -3 ∧
    ((18446744073709551613 : Nat) : Int) ≠ ((0 : Nat) : Int) + sext16 (word16 0xFF 0xFD) := by
  decide

/-- C12 (amended): for every program counter `p` and bytes `b1`, `b2` at `p + 1`, `p + 2`,
a `GOTO` at `p`, and every conditional branch at `p` whose predicate holds, pops the values
it compares and sets `pc` to `(p + off) mod 2^64`, the sum in the unsigned 64-bit type of
`pc`, where `off` in `[-32768, 32767]` is the 16-bit big-endian word `b1 * 256 + b2` read as
a two's-complement integer; the offset counts from the position `p` of the opcode.  Whenever
`0 ≤ p + off < 2^64` the new `pc` is exactly `p + off`. -/
theorem branch_target (H : Host) (bc0 : bc0_file) (s : State) (op : Opcode)
    (rest : List c0_value) (b1 b2 : Nat)
    (hpc : s.P[s.pc]? = some (H.isa.code op))
    (hb1 : s.P[s.pc + 1]? = some b1) (hb2 : s.P[s.pc + 2]? = some b2)
    (hr1 : b1 < 256) (hr2 : b2 < 256)
    (htaken : branchTaken op s.S = some rest) :
    ∃ off : Int,
      off = (if b1 * 256 + b2 < 32768 then ((b1 * 256 + b2 : Nat) : Int)
             else ((b1 * 256 + b2 : Nat) : Int) - 65536) ∧
      -32768 ≤ off ∧ off ≤ 32767 ∧
      step H bc0 s = .next { s with
        S := rest
        pc := (((s.pc : Int) + off) % 18446744073709551616).toNat } ∧
      (0 ≤ (s.pc : Int) + off → (s.pc : Int) + off < 18446744073709551616 →
        ∃ s', step H bc0 s = .next s' ∧ (s'.pc : Int) = (s.pc : Int) + off) := by
  have hw : word16 b1 b2 = b1 * 256 + b2 := by
    simp [word16, Nat.mod_eq_of_lt hr1, Nat.mod_eq_of_lt hr2]
  have hlt : b1 * 256 + b2 < 65536 := by omega
  have hoff : sext16 (word16 b1 b2)
      = (if b1 * 256 + b2 < 32768 then ((b1 * 256 + b2 : Nat) : Int)
         else ((b1 * 256 + b2 : Nat) : Int) - 65536) := by
    rw [hw]
    simp only [sext16, Nat.mod_eq_of_lt hlt]
  have hstep := branch_taken_step H bc0 s op rest b1 b2 hpc hb1 hb2 htaken
  refine ⟨sext16 (word16 b1 b2), hoff, (sext16_range _).1, (sext16_range _).2, hstep, ?_⟩
  intro h0 h1
  refine ⟨_, hstep, ?_⟩
  simp only [pcAdd]
  rw [Int.toNat_of_nonneg (by omega)]
  omega

/-- The bytes `0xFF 0xFD` at `p = 10` give `pc = 7`. -/
theorem branch_target_witness :
    step c0vmHost (moduleOf backwardGoto 0) (stateAt backwardGoto 10 [])
      = .next (stateAt backwardGoto 7 []) := by
  obtain ⟨off, hoff, _, _, hstep, _⟩ :=
    branch_target c0vmHost (moduleOf backwardGoto 0) (stateAt backwardGoto 10 []) .GOTO []
      0xFF 0xFD (by decide) (by decide) (by decide) (by decide) (by decide) (by decide)
  rw [hstep, hoff]
  decide

/-- C13: for 32-bit integers `x` (pushed first) and `y` (on top), a step at `IF_ICMPLT`,
`IF_ICMPGE`, `IF_ICMPGT` or `IF_ICMPLE` at position `p` pops both values; when `x < y`,
`x ≥ y`, `x > y` or `x ≤ y` respectively it takes the branch (`pc` becomes `p` plus the
signed 16-bit offset, in `size_t`), and when the comparison fails `pc` becomes exactly
`p + 3`; in both cases the operand stack is the old one without its top two entries. -/
theorem icmp_branch (H : Host) (bc0 : bc0_file) (s : State) (op : Opcode) (x y : Int)
    (rest : List c0_value) (b1 b2 : Nat)
    (hx : isInt32 x) (hy : isInt32 y)
    (hop : op = .IF_ICMPLT ∨ op = .IF_ICMPGE ∨ op = .IF_ICMPGT ∨ op = .IF_ICMPLE)
    (hpc : s.P[s.pc]? = some (H.isa.code op))
    (hb1 : s.P[s.pc + 1]? = some b1) (hb2 : s.P[s.pc + 2]? = some b2)
    (hS : s.S = .int y :: .int x :: rest) :
    (icmpHolds op x y = true ↔
      ((op = .IF_ICMPLT ∧ x < y) ∨ (op = .IF_ICMPGE ∧ x ≥ y) ∨
       (op = .IF_ICMPGT ∧ x > y) ∨ (op = .IF_ICMPLE ∧ x ≤ y))) ∧
    (icmpHolds op x y = true →
      step H bc0 s = .next { s with S := rest, pc := pcAdd s.pc (sext16 (word16 b1 b2)) }) ∧
    (icmpHolds op x y = false →
      step H bc0 s = .next { s with S := rest, pc := s.pc + 3 }) ∧
    (∃ s', step H bc0 s = .next s' ∧ s'.S = rest ∧ s'.S.length + 2 = s.S.length) := by
  have _ := hx
  have _ := hy
  have hj : jump { s with S := rest }
      = .next { s with S := rest, pc := pcAdd s.pc (sext16 (word16 b1 b2)) } :=
    jump_eq { s with S := rest } b1 b2 hb1 hb2
  have hexec : step H bc0 s = branch { s with S := rest } (icmpHolds op x y) := by
    rw [step_eq_exec H bc0 s op hpc]
    rcases hop with rfl | rfl | rfl | rfl <;>
      simp only [exec, popInt, pop, val2int, hS, icmpHolds]
  have hlen : rest.length + 2 = s.S.length := by rw [hS]; simp
  refine ⟨?_, ?_, ?_, ?_⟩
  · rcases hop with rfl | rfl | rfl | rfl <;> simp [icmpHolds]
  · intro h
    rw [hexec, h]
    simp only [branch, if_true]
    exact hj
  · intro h
    rw [hexec, h]
    simp [branch]
  · rw [hexec]
    cases icmpHolds op x y
    · exact ⟨{ s with S := rest, pc := s.pc + 3 }, by simp [branch], rfl, hlen⟩
    · exact ⟨{ s with S := rest, pc := pcAdd s.pc (sext16 (word16 b1 b2)) },
        by simp only [branch, if_true]; exact hj, rfl, hlen⟩

/-- The branch `IF_ICMPLT +6` at position 0: taken for 3 < 5. -/
theorem icmp_branch_witness :
    step c0vmHost (moduleOf compareCode 0) (stateAt compareCode 0 [.int 5, .int 3, .int 9])
      = .next (stateAt compareCode 6 [.int 9]) := by
  have h := (icmp_branch c0vmHost (moduleOf compareCode 0)
    (stateAt compareCode 0 [.int 5, .int 3, .int 9]) .IF_ICMPLT 3 5 [.int 9] 0 6
    (by decide) (by decide) (Or.inl rfl) (by decide) (by decide) (by decide) rfl).2.1
    (by decide)
  rw [h]
  decide

/-- The structural rule of `val_equal`. -/
theorem val_equal_iff (v1 v2 : c0_value) :
    val_equal v1 v2 = true ↔
      (∃ a, v1 = .int a ∧ v2 = .int a) ∨ (∃ p, v1 = .ptr p ∧ v2 = .ptr p) := by
  cases v1 <;> cases v2 <;> simp [val_equal, eq_comm]

/-- C14: for values `v1`, `v2` on top of the operand stack, `IF_CMPEQ` pops both and takes
its branch if and only if they are equal under the structural rule (two integers with the
same value, or two references that are both null or both the same heap location; never an
integer and a reference), and otherwise goes on at `p + 3`; `IF_CMPNE` takes its branch in
exactly the complementary cases. -/
theorem cmp_branch (H : Host) (bc0 : bc0_file) (s : State) (v1 v2 : c0_value)
    (rest : List c0_value) (b1 b2 : Nat)
    (hb1 : s.P[s.pc + 1]? = some b1) (hb2 : s.P[s.pc + 2]? = some b2)
    (hS : s.S = v1 :: v2 :: rest) :
    (val_equal v1 v2 = true ↔
      (∃ a, v1 = .int a ∧ v2 = .int a) ∨ (v1 = .ptr .null ∧ v2 = .ptr .null) ∨
      (∃ blk off, v1 = .ptr (.addr blk off) ∧ v2 = .ptr (.addr blk off))) ∧
    (s.P[s.pc]? = some (H.isa.code .IF_CMPEQ) →
      step H bc0 s =
        if val_equal v1 v2
        then .next { s with S := rest, pc := pcAdd s.pc (sext16 (word16 b1 b2)) }
        else .next { s with S := rest, pc := s.pc + 3 }) ∧
    (s.P[s.pc]? = some (H.isa.code .IF_CMPNE) →
      step H bc0 s =
        if val_equal v1 v2
        then .next { s with S := rest, pc := s.pc + 3 }
        else .next { s with S := rest, pc := pcAdd s.pc (sext16 (word16 b1 b2)) }) := by
  have hj : jump { s with S := rest }
      = .next { s with S := rest, pc := pcAdd s.pc (sext16 (word16 b1 b2)) } :=
    jump_eq { s with S := rest } b1 b2 hb1 hb2
  refine ⟨?_, ?_, ?_⟩
  · rw [val_equal_iff]
    constructor
    · rintro (⟨a, h1, h2⟩ | ⟨p, h1, h2⟩)
      · exact Or.inl ⟨a, h1, h2⟩
      · cases p with
        | null => exact Or.inr (Or.inl ⟨h1, h2⟩)
        | addr blk off => exact Or.inr (Or.inr ⟨blk, off, h1, h2⟩)
    · rintro (⟨a, h1, h2⟩ | ⟨h1, h2⟩ | ⟨blk, off, h1, h2⟩)
      · exact Or.inl ⟨a, h1, h2⟩
      · exact Or.inr ⟨_, h1, h2⟩
      · exact Or.inr ⟨_, h1, h2⟩
  · intro hpc
    rw [step_eq_exec H bc0 s .IF_CMPEQ hpc]
    simp only [exec, pop, hS, branch]
    cases val_equal v1 v2
    · simp
    · simp only [if_true]; exact hj
  · intro hpc
    rw [step_eq_exec H bc0 s .IF_CMPNE hpc]
    simp only [exec, pop, hS, branch]
    cases val_equal v1 v2
    · simp only [Bool.not_false, if_true]
      rw [hj]
      simp
    · simp

/-- The branch `IF_CMPEQ +6` at position 0 is taken for two null references. -/
theorem cmp_branch_witness :
    step c0vmHost (moduleOf equalCode 0) (stateAt equalCode 0 [.ptr .null, .ptr .null])
      = .next (stateAt equalCode 6 []) := by
  have h := (cmp_branch c0vmHost (moduleOf equalCode 0)
    (stateAt equalCode 0 [.ptr .null, .ptr .null]) (.ptr .null) (.ptr .null) [] 0 6
    (by decide) (by decide) rfl).2.1 (by decide)
  rw [h]
  decide

/-! ## Unsupported opcodes -/

theorem InstructionSet.decode_none (I : InstructionSet) (b : Nat)
    (h : ∀ op, I.code op ≠ b) : I.decode b = none := by
  unfold InstructionSet.decode
  rw [List.find?_eq_none]
  intro op _
  simpa using h op

/-- C15: when the byte `b` at `pc` is the code of one of the extension opcodes `CHECKTAG`,
`HASTAG`, `ADDTAG`, `ADDROF_STATIC`, `ADDROF_NATIVE`, `INVOKEDYNAMIC`, or is the code of no
case of the `switch` at all, the step raises the invalid-opcode error carrying `b`, in the
very state it started from: `pc` has not advanced and nothing else has changed. -/
theorem invalid_opcode (H : Host) (bc0 : bc0_file) (s : State) (b : Nat)
    (hpc : s.P[s.pc]? = some b) (hb : b < 256)
    (hbad : (∃ op, op ∈ [Opcode.CHECKTAG, .HASTAG, .ADDTAG, .ADDROF_STATIC, .ADDROF_NATIVE,
                .INVOKEDYNAMIC] ∧ b = H.isa.code op) ∨
            (∀ op, H.isa.code op ≠ b)) :
    step H bc0 s = .fault (.invalidOpcode b) s := by
  rcases hbad with ⟨op, hop, rfl⟩ | hnone
  · rw [step_eq_exec H bc0 s op hpc]
    simp only [List.mem_cons, List.mem_singleton, List.mem_nil_iff, or_false] at hop
    rcases hop with rfl | rfl | rfl | rfl | rfl | rfl <;>
      simp [exec, fetch, hpc, Nat.mod_eq_of_lt hb]
  · simp [step, fetch, hpc, Nat.mod_eq_of_lt hb, H.isa.decode_none b hnone]

/-- The byte `0xC0` (`CHECKTAG`) is rejected with the state unchanged. -/
theorem invalid_opcode_witness :
    step c0vmHost (moduleOf [0xC0] 0) (stateAt [0xC0] 0 [.int 1])
      = .fault (.invalidOpcode 0xC0) (stateAt [0xC0] 0 [.int 1]) :=
  invalid_opcode c0vmHost (moduleOf [0xC0] 0) (stateAt [0xC0] 0 [.int 1]) 0xC0
    (by decide) (by decide) (Or.inl ⟨.CHECKTAG, by decide, by decide⟩)

/-- C16, at the failing input: on `bigArrayLoadModule`, `NEWARRAY 4` with the count
`n = 2^30 + 1` succeeds and stores the count `n` and the element size 4, but the element
storage it allocates (heap block 2) has 4 bytes, not `n * 4 = 4294967300`; `AADDS` with the
index 1, which is below `n`, then yields the address at offset 4 of that block, and the
`IMLOAD` through it reads past the end of the storage instead of reading 0. -/
theorem newarray_storage_wraps :
    ((initial bigArrayLoadModule).bind (steps c0vmHost bigArrayLoadModule 2)).map
        (fun s => (s.S, s.heap[1]?, s.heap[2]?))
      = some ([.ptr (.addr 1 0)], some (arrayHeader 1073741825 4 (.addr 2 0)),
              some [.byte 0, .byte 0, .byte 0, .byte 0]) ∧
    (1073741825 : Int) * 4 = 4294967300 ∧
    ((initial bigArrayLoadModule).bind (steps c0vmHost bigArrayLoadModule 4)).map (fun s => s.S)
      = some [.ptr (.addr 2 4)] ∧
    execute c0vmHost bigArrayLoadModule 5 = .undef := by
  decide

/-! ## Native calls -/

/-- What `INVOKENATIVE` does.  The source keeps the parameter count of the native
descriptor `f` in a `uint8_t`, so `k = num_args mod 256` values are popped: for a stack whose
top `k` entries are `args = [v_0, ..., v_(k-1)]` with `v_0` pushed first, the step calls the
host routine in slot `t = function_table_index` on the array `args` (and the heap); when the
routine returns `res`, the new state has the stack without those `k` entries and with `res`
pushed, `pc` advanced by 3 and the heap the routine left, while locals, code and call stack
are unchanged; an error raised by the routine ends the run. -/
theorem invokenative_step (H : Host) (bc0 : bc0_file) (s : State) (f : native_info)
    (fn : native_fn) (c1 c2 : Nat) (args rest : List c0_value)
    (hpc : s.P[s.pc]? = some (H.isa.code .INVOKENATIVE))
    (hc1 : s.P[s.pc + 1]? = some c1) (hc2 : s.P[s.pc + 2]? = some c2)
    (hf : bc0.native_pool[word16 c1 c2]? = some f)
    (hk : f.num_args % 256 = args.length)
    (ht : f.function_table_index < 65536)
    (hfn : H.native_function_table[f.function_table_index]? = some fn)
    (hS : s.S = args.reverse ++ rest) :
    step H bc0 s =
      match fn args s.heap with
      | .ok res h => .next { s with S := res :: rest, pc := s.pc + 3, heap := h }
      | .fault k => .fault k { s with S := rest, pc := s.pc + 3 }
      | .undef => .undef := by
  rw [step_eq_exec H bc0 s .INVOKENATIVE hpc]
  have hpop := popArgs_eq (f.num_args % 256) args.reverse 0 (zeroValues (f.num_args % 256))
    rest (by simp [hk]) (by simp [zeroValues, ← hk])
  simp only [List.length_reverse, List.reverse_reverse, ← hk] at hpop
  have hdrop : (zeroValues (f.num_args % 256)).drop (f.num_args % 256) = [] := by
    simp [zeroValues]
  rw [hdrop, List.append_nil] at hpop
  simp only [exec, fetch, hc1, hc2, word16_mod, hf, Nat.mod_eq_of_lt ht, hS, hpop, hfn,
    State.push]

/-- The native call of `nativeModule` on the arguments 10 (pushed first) and 3: the routine
receives `[10, 3]` and its result 10 replaces the two arguments. -/
theorem invokenative_two_arguments :
    step nativeHost nativeModule (stateAt [0xB7, 0, 0, 0xB0] 0 [.int 3, .int 10, .int 77])
      = .next (stateAt [0xB7, 0, 0, 0xB0] 3 [.int 10, .int 77]) :=
  invokenative_step nativeHost nativeModule
    (stateAt [0xB7, 0, 0, 0xB0] 0 [.int 3, .int 10, .int 77])
    { num_args := 2, function_table_index := 0 } firstArg 0 0 [.int 10, .int 3] [.int 77]
    (by decide) (by decide) (by decide) (by decide) rfl (by decide) rfl rfl

/-- C17, at the failing input: the native descriptor of `wideNativeModule` has 258
parameters, and the operand stack holds 258 arguments (the value 5) on top of 77.  The step
at `INVOKENATIVE` keeps the count in a `uint8_t`, so it pops only `258 mod 256 = 2` values:
the host routine, which returns the number of arguments it is given, is called with 2
arguments, and its result 2 is pushed on a stack that still holds the other 256 arguments
above 77, instead of the result for all 258 arguments being pushed on top of 77 alone. -/
theorem invokenative_narrows :
    step countHost wideNativeModule
        (stateAt [0xB7, 0, 0, 0xB0] 0 (List.replicate 258 (.int 5) ++ [.int 77]))
      = .next (stateAt [0xB7, 0, 0, 0xB0] 3
          (.int 2 :: (List.replicate 256 (.int 5) ++ [.int 77]))) ∧
    countArgs (List.replicate 258 (c0_value.int 5)) [] = NativeResult.ok (.int 258) [] ∧
    (List.replicate 258 (c0_value.int 5) ++ [c0_value.int 77]).drop 258
      = [c0_value.int 77] := by
  have e : List.replicate 258 (c0_value.int 5)
      = [.int 5, .int 5] ++ List.replicate 256 (.int 5) :=
    List.replicate_add 2 256 (c0_value.int 5)
  have hS : (stateAt [0xB7, 0, 0, 0xB0] 0 (List.replicate 258 (.int 5) ++ [.int 77])).S
      = [c0_value.int 5, .int 5].reverse ++ (List.replicate 256 (.int 5) ++ [.int 77]) := by
    show List.replicate 258 (c0_value.int 5) ++ [.int 77] = _
    rw [e, List.append_assoc]
    rfl
  refine ⟨?_, ?_, ?_⟩
  · have h := invokenative_step countHost wideNativeModule
      (stateAt [0xB7, 0, 0, 0xB0] 0 (List.replicate 258 (.int 5) ++ [.int 77]))
      { num_args := 258, function_table_index := 0 } countArgs 0 0 [.int 5, .int 5]
      (List.replicate 256 (.int 5) ++ [.int 77])
      (by decide) (by decide) (by decide) (by decide) rfl (by decide) rfl hS
    exact h
  · simp only [countArgs, List.length_replicate]
    rfl
  · exact List.drop_left' (List.length_replicate _ _)

/-! ## Loads and stores -/

theorem land127_range (x : Int) : 0 ≤ Int.land x 127 ∧ Int.land x 127 < 128 := by
  cases x with
  | ofNat m =>
    have h : Int.land (Int.ofNat m) 127 = ((m &&& 127 : Nat) : Int) := rfl
    rw [h]
    have := Nat.and_lt_two_pow m (show 127 < 2 ^ 7 by decide)
    constructor
    · exact Int.ofNat_nonneg _
    · exact_mod_cast this
  | negSucc m =>
    have h : Int.land (Int.negSucc m) 127 = ((Nat.ldiff 127 m : Nat) : Int) := rfl
    rw [h]
    have : Nat.ldiff 127 m < 2 ^ 7 := by
      apply Nat.lt_pow_two_of_testBit
      intro i hi
      rw [Nat.testBit_ldiff]
      have : Nat.testBit 127 i = false :=
        Nat.testBit_lt_two_pow (lt_of_lt_of_le (by decide : 127 < 2 ^ 7)
          (Nat.pow_le_pow_right (by decide) hi))
      simp [this]
    constructor
    · exact Int.ofNat_nonneg _
    · exact_mod_cast this

/-- A write inside a block succeeds. -/
theorem write_some (h : Heap) (blk off : Nat) (new cs : List Cell)
    (hblk : h[blk]? = some cs) (hroom : off + new.length ≤ cs.length) :
    Heap.write h blk off new
      = some (h.set blk (cs.take off ++ new ++ cs.drop (off + new.length))) := by
  simp [Heap.write, hblk, hroom]

/-- Reading back what was just written. -/
theorem read_write (h h' : Heap) (blk off : Nat) (new : List Cell)
    (hw : Heap.write h blk off new = some h') :
    Heap.read h' blk off new.length = some new := by
  unfold Heap.write at hw
  split at hw
  · simp at hw
  · rename_i cs hblk
    split at hw
    · rename_i hroom
      simp only [Option.some.injEq] at hw
      subst hw
      have hlt : blk < h.length := by
        rw [List.getElem?_eq_some] at hblk
        exact hblk.1
      have hoff : (cs.take off).length = off := by
        rw [List.length_take]; omega
      simp only [Heap.read, List.getElem?_set_self hlt]
      have hlen : off + new.length
          ≤ (cs.take off ++ new ++ cs.drop (off + new.length)).length := by
        simp only [List.length_append, hoff, List.length_drop]; omega
      rw [if_pos hlen, List.append_assoc, List.drop_left' hoff, List.take_left]
    · simp at hw

theorem sext8_small (b : Nat) (h : b < 128) : sext8 b = b := by
  unfold sext8
  have : b % 256 = b := Nat.mod_eq_of_lt (by omega)
  rw [this, if_pos h]

/-- The character store followed by the character load. -/
theorem load8_store8 (h h' : Heap) (blk off : Nat) (x : Int)
    (hx0 : 0 ≤ x) (hx1 : x < 128)
    (hw : Heap.store8 h blk off x = some h') : Heap.load8 h' blk off = some x := by
  have hr := read_write h h' blk off _ hw
  simp only [List.length_singleton] at hr
  simp only [Heap.load8, hr]
  have h1 : (x % 256).toNat < 128 := by omega
  rw [sext8_small _ h1]
  congr 1
  omega

/-- The word store followed by the word load. -/
theorem load32_store32 (h h' : Heap) (blk off : Nat) (x : Int) (hx : isInt32 x)
    (hw : Heap.store32 h blk off x = some h') : Heap.load32 h' blk off = some x := by
  have hr := read_write h h' blk off _ hw
  have hl : (encode32 x).length = 4 := rfl
  rw [hl] at hr
  simp only [Heap.load32, Heap.loadU32, hr, decodeU32_encode32]
  have hwrap : wrap32 (((x % 4294967296).toNat : Nat) : Int) = x := by
    unfold isInt32 at hx
    unfold wrap32
    omega
  rw [hwrap]

/-- C18: byte and word round trips.  Let `blk + off` be a non-null reference into a heap
block `cs`, `x` a 32-bit integer, `s` a state with `x` on top of the stack and the reference
below it, and `t` a state with the reference on top of its stack.  If the byte at `off` is
inside the block, `CMSTORE` at `s` succeeds, and `CMLOAD` at `t`, run on the heap the store
left, pushes exactly `x AND 0x7f`, a value in `0..127` that differs from `x` whenever `x` is
outside that range.  If the four bytes from `off` are inside the block, `IMSTORE` at `s`
succeeds and `IMLOAD` at `t`, run on the heap the store left, pushes `x` itself. -/
theorem store_load_roundtrip (H : Host) (bc0 : bc0_file) (s t : State) (blk off : Nat)
    (cs : List Cell) (x : Int) (rest rest' : List c0_value)
    (hx : isInt32 x)
    (hblk : s.heap[blk]? = some cs)
    (hS : s.S = .int x :: .ptr (.addr blk off) :: rest)
    (hT : t.S = .ptr (.addr blk off) :: rest') :
    (0 ≤ Int.land x 127 ∧ Int.land x 127 ≤ 127 ∧ (x < 0 ∨ 127 < x → Int.land x 127 ≠ x)) ∧
    (off + 1 ≤ cs.length → s.P[s.pc]? = some (H.isa.code .CMSTORE) →
      t.P[t.pc]? = some (H.isa.code .CMLOAD) →
      ∃ s1, step H bc0 s = .next s1 ∧ s1.S = rest ∧ s1.pc = s.pc + 1 ∧
        (t.heap = s1.heap →
          step H bc0 t
            = .next { t with S := .int (Int.land x 127) :: rest', pc := t.pc + 1 })) ∧
    (off + 4 ≤ cs.length → s.P[s.pc]? = some (H.isa.code .IMSTORE) →
      t.P[t.pc]? = some (H.isa.code .IMLOAD) →
      ∃ s1, step H bc0 s = .next s1 ∧ s1.S = rest ∧ s1.pc = s.pc + 1 ∧
        (t.heap = s1.heap →
          step H bc0 t = .next { t with S := .int x :: rest', pc := t.pc + 1 })) := by
  obtain ⟨hl0, hl1⟩ := land127_range x
  refine ⟨⟨hl0, by omega, fun h => by omega⟩, ?_, ?_⟩
  · intro hroom hpc hpc'
    have hw : Heap.store8 s.heap blk off (Int.land x 127)
        = some (s.heap.set blk (cs.take off ++ [.byte (Int.land x 127 % 256).toNat]
            ++ cs.drop (off + 1))) :=
      write_some s.heap blk off _ cs hblk hroom
    refine ⟨{ s with S := rest, pc := s.pc + 1,
                     heap := s.heap.set blk (cs.take off
                       ++ [.byte (Int.land x 127 % 256).toNat] ++ cs.drop (off + 1)) },
      ?_, rfl, rfl, ?_⟩
    · rw [step_eq_exec H bc0 s .CMSTORE hpc]
      simp only [exec, popInt, popPtr, pop, State.incPc, hS, val2int, val2ptr, hw]
    · intro hheap
      rw [step_eq_exec H bc0 t .CMLOAD hpc']
      have hload := load8_store8 s.heap _ blk off (Int.land x 127) hl0 hl1 hw
      simp only at hheap
      simp only [exec, popPtr, pop, State.incPc, State.push, hT, val2ptr, int2val, hheap,
        hload]
  · intro hroom hpc hpc'
    have hw : Heap.store32 s.heap blk off x
        = some (s.heap.set blk (cs.take off ++ encode32 x ++ cs.drop (off + 4))) :=
      write_some s.heap blk off _ cs hblk hroom
    refine ⟨{ s with S := rest, pc := s.pc + 1,
                     heap := s.heap.set blk (cs.take off ++ encode32 x ++ cs.drop (off + 4)) },
      ?_, rfl, rfl, ?_⟩
    · rw [step_eq_exec H bc0 s .IMSTORE hpc]
      simp only [exec, popInt, popPtr, pop, State.incPc, hS, val2int, val2ptr, hw]
    · intro hheap
      rw [step_eq_exec H bc0 t .IMLOAD hpc']
      have hload := load32_store32 s.heap _ blk off x hx hw
      simp only at hheap
      simp only [exec, popPtr, pop, State.incPc, State.push, hT, val2ptr, int2val, hheap,
        hload]

/-- The byte round trip at `x = 200`: `CMSTORE` then `CMLOAD` gives `200 AND 0x7f = 72`. -/
theorem store_load_roundtrip_witness :
    step c0vmHost (moduleOf [0x55, 0x34] 0)
        (memState [0x55, 0x34] 0 [.int 200, .ptr (.addr 0 0)])
      = .next (storedState [0x55, 0x34] 1 []) ∧
    step c0vmHost (moduleOf [0x55, 0x34] 0) (storedState [0x55, 0x34] 1 [.ptr (.addr 0 0)])
      = .next (storedState [0x55, 0x34] 2 [.int 72]) := by
  obtain ⟨s1, h1, _, _, h2⟩ := (store_load_roundtrip c0vmHost (moduleOf [0x55, 0x34] 0)
    (memState [0x55, 0x34] 0 [.int 200, .ptr (.addr 0 0)])
    (storedState [0x55, 0x34] 1 [.ptr (.addr 0 0)]) 0 0 (List.replicate 8 Cell.undef) 200 [] []
    (by decide) (by decide) rfl rfl).2.1 (by decide) (by decide) (by decide)
  have e : step c0vmHost (moduleOf [0x55, 0x34] 0)
      (memState [0x55, 0x34] 0 [.int 200, .ptr (.addr 0 0)])
      = .next (storedState [0x55, 0x34] 1 []) := by decide
  have hs1 : s1 = storedState [0x55, 0x34] 1 [] := by
    rw [e] at h1
    exact (Outcome.next.inj h1).symm
  refine ⟨e, ?_⟩
  rw [h2 (by rw [hs1]; rfl)]
  decide

/-! ## Returns with values left over -/

/-- C19, at the failing input: a `RETURN` in the callee of `callModule` with two values, 7
on top of 99, on its operand stack and the caller's frame on the call stack is not rejected:
the step succeeds, 7 is handed to the caller and 99 is dropped, and the caller goes on in
the very state it reaches after a return with 7 alone.  The `RETURN` with an empty call
stack does check: with the same two values it fails its assertion. -/
theorem return_discards_leftover :
    step c0vmHost callModule (inCallee 5 [.int 7, .int 99]) = .next afterReturn ∧
    step c0vmHost callModule (inCallee 5 [.int 7]) = .next afterReturn ∧
    step c0vmHost (moduleOf [0xB0] 0) (stateAt [0xB0] 0 [.int 7, .int 99])
      = .assertFailed (stateAt [0xB0] 0 [.int 99]) := by
  decide

/-! ## The count of an array -/

/-- C20, as stated, fails: on `overwriteModule` the array made by `NEWARRAY` is heap block 1;
after five iterations, in a state reached from the initial state, the `IMSTORE` through the
array reference has overwritten its count, which reads back as -1, and the `ARRAYLENGTH` on
that reference, which is not null, raises "Invalid Length!". -/
theorem array_count_overwritten :
    ((initial overwriteModule).bind (steps c0vmHost overwriteModule 2)).map
        (fun s => (s.S, s.heap.load32 1 0))
      = some ([.ptr (.addr 1 0)], some 1) ∧
    ((initial overwriteModule).bind (steps c0vmHost overwriteModule 5)).map
        (fun s => (s.S, s.heap.load32 1 0))
      = some ([.ptr (.addr 1 0)], some (-1)) ∧
    (execute c0vmHost overwriteModule 6).raised = some (.memory "Invalid Length!") := by
  decide

/-- A write into another block leaves a block as it is. -/
theorem write_other (h h' : Heap) (b blk off : Nat) (new : List Cell)
    (hw : Heap.write h b off new = some h') (hne : b ≠ blk) : h'[blk]? = h[blk]? := by
  unfold Heap.write at hw
  split at hw
  · simp at hw
  · split at hw
    · simp only [Option.some.injEq] at hw
      subst hw
      exact List.getElem?_set_ne hne
    · simp at hw

/-- Every case of the loop other than the stores, the allocations and the native call
leaves the heap alone. -/
theorem exec_heap (H : Host) (bc0 : bc0_file) (op : Opcode) (u u' : State)
    (hop : op ∉ [Opcode.IMSTORE, .AMSTORE, .CMSTORE, .INVOKENATIVE, .NEW, .NEWARRAY])
    (h : exec H bc0 op u = .next u') : u'.heap = u.heap := by
  cases op <;>
    first
    | exact absurd (by decide) hop
    | (simp only [exec, pop, popInt, popPtr, fetch, branch, jump, State.push, State.incPc] at h
       repeat' split at h
       all_goals first
         | (simp only [Outcome.next.injEq] at h; subst h; rfl)
         | (simp at h))

/-- The allocations only add blocks at the end of the heap. -/
theorem exec_alloc (H : Host) (bc0 : bc0_file) (op : Opcode) (u u' : State)
    (hop : op = .NEW ∨ op = .NEWARRAY)
    (h : exec H bc0 op u = .next u') : ∃ extra, u'.heap = u.heap ++ extra := by
  rcases hop with rfl | rfl <;>
    (simp only [exec, pop, popInt, fetch, State.push, State.incPc] at h
     repeat' split at h
     all_goals first
       | (simp only [Outcome.next.injEq] at h; subst h; exact ⟨_, rfl⟩)
       | (simp at h))

/-- A store whose target lies in another block leaves a block as it is. -/
theorem exec_store (H : Host) (bc0 : bc0_file) (op : Opcode) (u u' : State) (blk : Nat)
    (hop : op = .IMSTORE ∨ op = .AMSTORE ∨ op = .CMSTORE)
    (hS : ∀ v b off rest, u.S = v :: .ptr (.addr b off) :: rest → b ≠ blk)
    (h : exec H bc0 op u = .next u') : u'.heap[blk]? = u.heap[blk]? := by
  rcases hS' : u.S with _ | ⟨v, _ | ⟨w, rest⟩⟩
  · rcases hop with rfl | rfl | rfl <;>
      simp [exec, pop, popInt, popPtr, State.incPc, hS'] at h
  · rcases hop with rfl | rfl | rfl <;> cases v <;>
      simp [exec, pop, popInt, popPtr, State.incPc, hS', val2int, val2ptr] at h
  · cases w with
    | int i =>
      rcases hop with rfl | rfl | rfl <;> cases v <;>
        simp [exec, pop, popInt, popPtr, State.incPc, hS', val2int, val2ptr] at h
    | ptr p =>
      cases p with
      | null =>
        rcases hop with rfl | rfl | rfl <;> cases v <;>
          simp [exec, pop, popInt, popPtr, State.incPc, hS', val2int, val2ptr] at h
      | addr b off =>
        have hne : b ≠ blk := hS v b off rest hS'
        rcases hop with rfl | rfl | rfl <;> cases v <;>
          simp only [exec, pop, popInt, popPtr, State.incPc, hS', val2int, val2ptr] at h <;>
          first
          | (split at h
             · simp at h
             · rename_i hw
               simp only [Outcome.next.injEq] at h
               subst h
               exact write_other _ _ b blk off _ hw hne)
          | (simp at h)

/-- An iteration that cannot write into block `blk` leaves that block as it is. -/
theorem step_keeps_block (H : Host) (bc0 : bc0_file) (s s' : State) (blk : Nat)
    (c : List Cell)
    (hstep : step H bc0 s = .next s') (hw : writesBlock H s blk = false)
    (hblk : s.heap[blk]? = some c) : s'.heap[blk]? = some c := by
  unfold step fetch at hstep
  unfold writesBlock at hw
  split at hstep
  · simp at hstep
  · rename_i b hb
    simp only [hb] at hw
    simp only at hstep
    split at hstep
    · simp at hstep
    · rename_i op hdec
      simp only [hdec] at hw
      by_cases hnat : op = .INVOKENATIVE
      · subst hnat
        simp at hw
      · by_cases hst : op = .IMSTORE ∨ op = .AMSTORE ∨ op = .CMSTORE
        · have hS : ∀ v b' off rest, s.S = v :: .ptr (.addr b' off) :: rest → b' ≠ blk := by
            intro v b' off rest hS
            rcases hst with rfl | rfl | rfl <;> simpa [hS] using hw
          rw [exec_store H bc0 op s s' blk hst hS hstep, hblk]
        · by_cases hal : op = .NEW ∨ op = .NEWARRAY
          · obtain ⟨extra, he⟩ := exec_alloc H bc0 op s s' hal hstep
            have hlt : blk < s.heap.length := by
              rw [List.getElem?_eq_some] at hblk
              exact hblk.1
            rw [he, List.getElem?_append_left hlt, hblk]
          · have hop : op ∉ [Opcode.IMSTORE, .AMSTORE, .CMSTORE, .INVOKENATIVE, .NEW,
                .NEWARRAY] := by
              simp only [List.mem_cons, List.mem_singleton, List.mem_nil_iff, or_false,
                not_or] at *
              exact ⟨hst.1, hst.2.1, hst.2.2, hnat, hal.1, hal.2⟩
            rw [exec_heap H bc0 op s s' hop hstep, hblk]

/-- A run that cannot write into block `blk` leaves that block as it is. -/
theorem stepsKeeping_block (H : Host) (bc0 : bc0_file) (blk : Nat) (c : List Cell) :
    ∀ (n : Nat) (s t : State), stepsKeeping H bc0 blk n s = some t →
      s.heap[blk]? = some c → t.heap[blk]? = some c
  | 0, s, t, h, hblk => by
    simp only [stepsKeeping, Option.some.injEq] at h
    subst h; exact hblk
  | n + 1, s, t, h, hblk => by
    simp only [stepsKeeping] at h
    split at h
    · simp at h
    · rename_i hw
      cases hs : step H bc0 s with
      | next s' =>
        rw [hs] at h
        exact stepsKeeping_block H bc0 blk c n s' t h
          (step_keeps_block H bc0 s s' blk c hs (by simpa using hw) hblk)
      | ret v => rw [hs] at h; simp at h
      | fault k w => rw [hs] at h; simp at h
      | assertFailed w => rw [hs] at h; simp at h
      | allocFailed w => rw [hs] at h; simp at h
      | undef => rw [hs] at h; simp at h

/-- C20 (amended): every array that `NEWARRAY` creates (the step succeeds, for a 32-bit
count `n` on top of the stack) has a count `n ≥ 0` stored in its header, and in every state
reached from there by iterations none of which can write into the header block (no store
whose target lies in that block, no native call) the count still reads back as `n`, a
non-negative 32-bit integer; so in such a state `ARRAYLENGTH` on the reference to the array
raises no error and pushes `n`. -/
theorem array_count_kept (H : Host) (bc0 : bc0_file) (s s1 t : State) (sz k : Nat) (n : Int)
    (rest : List c0_value)
    (hn32 : isInt32 n) (hsz : sz < 256)
    (hpc : s.P[s.pc]? = some (H.isa.code .NEWARRAY))
    (hop : s.P[s.pc + 1]? = some sz)
    (hS : s.S = .int n :: rest)
    (hstep : step H bc0 s = .next s1)
    (hrun : stepsKeeping H bc0 s.heap.length k s1 = some t) :
    0 ≤ n ∧
    s1.S = .ptr (.addr s.heap.length 0) :: rest ∧
    s1.heap.load32 s.heap.length 0 = some n ∧
    t.heap.load32 s.heap.length 0 = some n ∧
    (∀ rest', t.P[t.pc]? = some (H.isa.code .ARRAYLENGTH) →
      t.S = .ptr (.addr s.heap.length 0) :: rest' →
      step H bc0 t = .next { t with S := .int n :: rest', pc := t.pc + 1 }) := by
  obtain ⟨hn, hs1⟩ := newarray_created H bc0 s s1 sz n rest hsz hpc hop hS hstep
  subst hs1
  have hblk1 : (afterNewarray s sz n rest).heap[s.heap.length]?
      = some (arrayHeader n sz (.addr (s.heap.length + 1) 0)) := by
    simp only [afterNewarray]
    exact heap_new_block s.heap _ _
  have hblk : t.heap[s.heap.length]?
      = some (arrayHeader n sz (.addr (s.heap.length + 1) 0)) :=
    stepsKeeping_block H bc0 s.heap.length _ k _ t hrun hblk1
  have hload1 : (afterNewarray s sz n rest).heap.load32 s.heap.length 0 = some n := by
    simp only [Heap.load32, load_count _ s.heap.length n sz _ hblk1, wrap32_toNat hn hn32]
  have hload : t.heap.load32 s.heap.length 0 = some n := by
    simp only [Heap.load32, load_count t.heap s.heap.length n sz _ hblk,
      wrap32_toNat hn hn32]
  refine ⟨hn, rfl, hload1, hload, ?_⟩
  intro rest' hpc' hT
  rw [step_eq_exec H bc0 t .ARRAYLENGTH hpc']
  simp [exec, popPtr, pop, State.incPc, State.push, val2ptr, int2val, hT, hload,
    Int.not_lt.mpr hn]

/-- The array of `lengthCode`: after `DUP` and `POP`, `ARRAYLENGTH` still gives 1. -/
theorem array_count_kept_witness :
    step c0vmHost (moduleOf lengthCode 0) (lengthState 4 [.ptr (.addr 0 0)])
      = .next (lengthState 5 [.int 1]) :=
  (array_count_kept c0vmHost (moduleOf lengthCode 0) (stateAt lengthCode 0 [.int 1])
    (lengthState 2 [.ptr (.addr 0 0)]) (lengthState 4 [.ptr (.addr 0 0)]) 4 2 1 []
    (by decide) (by decide) (by decide) (by decide) rfl (by decide) (by decide)).2.2.2.2 []
    (by decide) rfl

end C0VM
